import Mathlib

/-!
# fabric-smart-client: the `view` command and the postgres key codec

A shallow embedding of

* `platform/view/services/client/view/cmd/view.go` (the `invokeCmd` command:
  `RegisterViewCommand`, `validateInput`, `GetHash`, `Hash`, `invoke`),
* `platform/view/services/db/driver/sql/postgres/encode.go` (`encode`, `decode`,
  `decodeUnversionedRead`, `decodeIterator`), and
* the parts of the Go standard library that decide what these functions
  compute (`encoding/base64`, `crypto/sha256`, `encoding/hex`, `path`).

Go strings and byte slices are sequences of bytes; a pointer (`*string`, `*bool`,
`*UnversionedRead`) is an `Option`, a nil slice is `none`.  Calls that leave the
program (reading standard input, loading the identity, building the client, calling
the view, printing) are taken from an environment `Env` and recorded in a trace.  The
package `collections` is not among the sources and is modelled from the
specification.
-/

/-! ## Bytes and strings -/

/-- One byte. -/
abbrev Byte := Fin 256

/-- A Go byte slice. -/
abbrev Bytes := List Byte

/-- A Go string: an immutable sequence of bytes (not necessarily valid UTF-8). -/
abbrev GoString := List Byte

/-- The bytes of an ASCII literal, used to write test vectors. -/
def ascii (s : String) : GoString := s.toList.map (fun c => Fin.ofNat c.toNat)

/-- The Go conversion `byte(n)`: the low eight bits. -/
def toByte (n : Nat) : Byte := ⟨n % 256, Nat.mod_lt n (by decide)⟩

/-- A Go error value, identified by the text that `Error()` returns. -/
structure GoError where
  msg : String
deriving DecidableEq, Repr

/-- The error built by `fmt.Errorf` once its verbs have been substituted. -/
def Errorf (text : String) : GoError := ⟨text⟩

/-! ## encoding/base64, `StdEncoding` -/

namespace Base64

/-- The alphabet of `StdEncoding` (the constant `encodeStd`). -/
def encodeStd : GoString :=
  ascii "ABCDEFGHIJKLMNOPQRSTUVWXYZabcdefghijklmnopqrstuvwxyz0123456789+/"

/-- The padding character `StdPadding`, the byte of `=`. -/
def padChar : Byte := 61

/-- The table `enc.encode`: sextet to alphabet character. -/
def encodeMap (i : Nat) : Byte := encodeStd.getD i 0

/-- The table `enc.decodeMap`: the sextet of an alphabet character, `0xff` for every
other byte. -/
def decodeMap (c : Byte) : Nat :=
  let i := encodeStd.indexOf c
  if i < 64 then i else 0xff

/-- `StdEncoding.EncodeToString`: three bytes become four characters; a remainder of
one or two bytes is padded with `=`. -/
def EncodeToString : Bytes → GoString
  | a :: b :: c :: rest =>
    let val := a.val <<< 16 ||| b.val <<< 8 ||| c.val
    encodeMap ((val >>> 18) &&& 0x3F) :: encodeMap ((val >>> 12) &&& 0x3F) ::
      encodeMap ((val >>> 6) &&& 0x3F) :: encodeMap (val &&& 0x3F) :: EncodeToString rest
  | [a, b] =>
    let val := a.val <<< 16 ||| b.val <<< 8
    [encodeMap ((val >>> 18) &&& 0x3F), encodeMap ((val >>> 12) &&& 0x3F),
      encodeMap ((val >>> 6) &&& 0x3F), padChar]
  | [a] =>
    let val := a.val <<< 16
    [encodeMap ((val >>> 18) &&& 0x3F), encodeMap ((val >>> 12) &&& 0x3F), padChar, padChar]
  | [] => []

/-- Line feed and carriage return, which the decoder skips. -/
def isNewline (c : Byte) : Bool := c = 10 || c = 13

/-- The loops `for si < len(src) && (src[si] == '\n' || src[si] == '\r')` of
`decodeQuantum`. -/
def skipNewlines (src : GoString) : GoString := src.dropWhile isNewline

/-- The tail of `decodeQuantum`: the sextets in `dbuf` (missing ones are zero) are
packed into 24 bits, of which the first `dlen - 1` bytes are output.  `StdEncoding`
is not strict, so the unused low bits are not inspected. -/
def quantumBytes (dbuf : List Nat) (dlen : Nat) : Bytes :=
  let val := dbuf.getD 0 0 <<< 18 ||| dbuf.getD 1 0 <<< 12 ||| dbuf.getD 2 0 <<< 6
    ||| dbuf.getD 3 0
  [toByte (val >>> 16), toByte (val >>> 8), toByte val].take (dlen - 1)

/-- The loop of `Decode` around `decodeQuantum`, read character by character: `dbuf`
holds the sextets of the quantum being read (its length is the counter `j`).  The
result is `none` where Go returns a `CorruptInputError`; the offset carried by that
error and the partial output returned with it are not modelled, the caller only tests
`err == nil`.  The word-at-a-time fast paths of `Decode` compute the same function. -/
def decodeLoop : GoString → List Nat → Option Bytes
  | [], dbuf => if dbuf.length = 0 then some [] else none
  | c :: rest, dbuf =>
    if decodeMap c ≠ 0xff then
      if dbuf.length = 3 then
        (decodeLoop rest []).map (fun tl => quantumBytes (dbuf ++ [decodeMap c]) 4 ++ tl)
      else decodeLoop rest (dbuf ++ [decodeMap c])
    else if isNewline c then decodeLoop rest dbuf
    else if c ≠ padChar then none
    else if dbuf.length < 2 then none
    else if dbuf.length = 2 then
      match skipNewlines rest with
      | [] => none
      | p :: rest2 =>
        if p ≠ padChar then none
        else if skipNewlines rest2 ≠ [] then none
        else some (quantumBytes dbuf 2)
    else
      if skipNewlines rest ≠ [] then none
      else some (quantumBytes dbuf 3)

/-- `StdEncoding.DecodeString`: `some b` when the error is nil, `none` otherwise. -/
def DecodeString (s : GoString) : Option Bytes := decodeLoop s []

end Base64

/-! ## crypto/sha256 -/

namespace Sha256

/-- The block size of SHA-256 in bytes. -/
def chunk : Nat := 64

/-- Truncation to `uint32`. -/
def u32 (n : Nat) : Nat := n % 2 ^ 32

/-- Rotation to the right, `bits.RotateLeft32(x, -n)`. -/
def rotr (x n : Nat) : Nat := u32 ((x >>> n) ||| (x <<< (32 - n)))

/-- The initial chaining value `init0 .. init7`. -/
def initH : List Nat :=
  [0x6A09E667, 0xBB67AE85, 0x3C6EF372, 0xA54FF53A, 0x510E527F, 0x9B05688C, 0x1F83D9AB,
   0x5BE0CD19]

/-- The round constants `_K`. -/
def K : List Nat :=
  [0x428a2f98, 0x71374491, 0xb5c0fbcf, 0xe9b5dba5, 0x3956c25b, 0x59f111f1, 0x923f82a4, 0xab1c5ed5,
   0xd807aa98, 0x12835b01, 0x243185be, 0x550c7dc3, 0x72be5d74, 0x80deb1fe, 0x9bdc06a7, 0xc19bf174,
   0xe49b69c1, 0xefbe4786, 0x0fc19dc6, 0x240ca1cc, 0x2de92c6f, 0x4a7484aa, 0x5cb0a9dc, 0x76f988da,
   0x983e5152, 0xa831c66d, 0xb00327c8, 0xbf597fc7, 0xc6e00bf3, 0xd5a79147, 0x06ca6351, 0x14292967,
   0x27b70a85, 0x2e1b2138, 0x4d2c6dfc, 0x53380d13, 0x650a7354, 0x766a0abb, 0x81c2c92e, 0x92722c85,
   0xa2bfe8a1, 0xa81a664b, 0xc24b8b70, 0xc76c51a3, 0xd192e819, 0xd6990624, 0xf40e3585, 0x106aa070,
   0x19a4c116, 0x1e376c08, 0x2748774c, 0x34b0bcb5, 0x391c0cb3, 0x4ed8aa4a, 0x5b9cca4f, 0x682e6ff3,
   0x748f82ee, 0x78a5636f, 0x84c87814, 0x8cc70208, 0x90befffa, 0xa4506ceb, 0xbef9a3f7, 0xc67178f2]

/-- The state of the incremental hash (`type digest`): the chaining value `h`, the
bytes `x[:nx]` waiting for a full block, and the number of bytes written (`uint64`). -/
structure digest where
  h : List Nat
  x : Bytes
  len : Nat
deriving DecidableEq

/-- The byte `p[i]` as an unsigned integer. -/
def byteAt (p : Bytes) (i : Nat) : Nat := (p.getD i 0).val

/-- The big-endian word `w[i]` read from a block. -/
def wordAt (p : Bytes) (i : Nat) : Nat :=
  byteAt p (4 * i) <<< 24 ||| byteAt p (4 * i + 1) <<< 16 ||| byteAt p (4 * i + 2) <<< 8
    ||| byteAt p (4 * i + 3)

/-- One step of the message schedule, `w[i]` for `16 ≤ i < 64`. -/
def scheduleStep (w : List Nat) (i : Nat) : List Nat :=
  let v1 := w.getD (i - 2) 0
  let t1 := rotr v1 17 ^^^ rotr v1 19 ^^^ (v1 >>> 10)
  let v2 := w.getD (i - 15) 0
  let t2 := rotr v2 7 ^^^ rotr v2 18 ^^^ (v2 >>> 3)
  w ++ [u32 (t1 + w.getD (i - 7) 0 + t2 + w.getD (i - 16) 0)]

/-- The 64 words of the message schedule of one block. -/
def schedule (p : Bytes) : List Nat :=
  (List.range 48).foldl (fun w i => scheduleStep w (i + 16)) ((List.range 16).map (wordAt p))

/-- The eight working variables of the compression function. -/
structure vars where
  a : Nat
  b : Nat
  c : Nat
  d : Nat
  e : Nat
  f : Nat
  g : Nat
  h : Nat

/-- Round `i` of the compression function. -/
def round (w : List Nat) (s : vars) (i : Nat) : vars :=
  let t1 := u32 (s.h + (rotr s.e 6 ^^^ rotr s.e 11 ^^^ rotr s.e 25)
    + ((s.e &&& s.f) ^^^ ((s.e ^^^ 0xFFFFFFFF) &&& s.g)) + K.getD i 0 + w.getD i 0)
  let t2 := u32 ((rotr s.a 2 ^^^ rotr s.a 13 ^^^ rotr s.a 22)
    + ((s.a &&& s.b) ^^^ (s.a &&& s.c) ^^^ (s.b &&& s.c)))
  ⟨u32 (t1 + t2), s.a, s.b, s.c, u32 (s.d + t1), s.e, s.f, s.g⟩

/-- The body of the loop of `blockGeneric`: one 64-byte block is compressed into the
chaining value. -/
def blockOne (h : List Nat) (p : Bytes) : List Nat :=
  let w := schedule p
  let s0 : vars := ⟨h.getD 0 0, h.getD 1 0, h.getD 2 0, h.getD 3 0, h.getD 4 0, h.getD 5 0,
    h.getD 6 0, h.getD 7 0⟩
  let s := (List.range 64).foldl (round w) s0
  [u32 (s0.a + s.a), u32 (s0.b + s.b), u32 (s0.c + s.c), u32 (s0.d + s.d),
   u32 (s0.e + s.e), u32 (s0.f + s.f), u32 (s0.g + s.g), u32 (s0.h + s.h)]

/-- The loop `for len(p) >= chunk` of `blockGeneric`, run `n` times. -/
def blockLoop : Nat → List Nat → Bytes → List Nat
  | 0, h, _ => h
  | n + 1, h, p => blockLoop n (blockOne h (p.take chunk)) (p.drop chunk)

/-- The function `block`: every full block of `p` is compressed in turn. -/
def block (h : List Nat) (p : Bytes) : List Nat := blockLoop (p.length / chunk) h p

/-- `sha256.New()`: a digest after `Reset`. -/
def New : digest := ⟨initH, [], 0⟩

/-- The first block of `(*digest).Write`, `if d.nx > 0`: the pending block is filled
from `p` and compressed once it is full; the second component is what is left of
`p`. -/
def fillPending (d : digest) (p : Bytes) : digest × Bytes :=
  if d.x.length > 0 then
    let n := min (chunk - d.x.length) p.length
    let x := d.x ++ p.take n
    (if x.length = chunk then { d with h := block d.h x, x := [] } else { d with x := x },
      p.drop n)
  else (d, p)

/-- The second block of `(*digest).Write`, `if len(p) >= chunk`: the full blocks of
`p` are compressed. -/
def writeBlocks (s : digest × Bytes) : digest × Bytes :=
  if s.2.length ≥ chunk then
    let n := s.2.length / chunk * chunk
    ({ s.1 with h := block s.1.h (s.2.take n) }, s.2.drop n)
  else s

/-- The third block of `(*digest).Write`, `if len(p) > 0`: the rest is kept as the
pending block. -/
def keepRest (s : digest × Bytes) : digest :=
  if s.2.length > 0 then { s.1 with x := s.2 } else s.1

/-- The method `(*digest).Write`: count the bytes, fill the pending block, compress
the full blocks of the rest, keep what is left. -/
def Write (d : digest) (p : Bytes) : digest :=
  keepRest (writeBlocks (fillPending { d with len := (d.len + p.length) % 2 ^ 64 } p))

/-- The big-endian encoding of `v` on `nbytes` bytes (`binary.BigEndian.PutUint32`,
`PutUint64`). -/
def bigEndian (nbytes : Nat) (v : Nat) : Bytes :=
  (List.range nbytes).map (fun i => toByte (v >>> (8 * (nbytes - 1 - i))))

/-- The method `(*digest).checkSum`: pad with `0x80`, zeros and the bit length, then
read the chaining value out. -/
def checkSum (d : digest) : Bytes :=
  let len := d.len
  let t := if len % 64 < 56 then 56 - len % 64 else 64 + 56 - len % 64
  let padlen := (toByte 0x80 :: List.replicate (t - 1) (toByte 0))
    ++ bigEndian 8 ((len <<< 3) % 2 ^ 64)
  let d1 := Write d padlen
  d1.h.flatMap (bigEndian 4)

/-- The method `(*digest).Sum`: the digest of a copy of the state, appended to `b`. -/
def Sum (d : digest) (b : Bytes) : Bytes := b ++ checkSum d

end Sha256

/-! ## path (`path.Clean`) -/

namespace Path

/-- The inner loop of the `..` case of `Clean`, on the reversed buffer: `last` is the
byte at `out.index(out.w)`. -/
def backUp : GoString → Byte → Nat → GoString
  | [], _, _ => []
  | c :: rev, last, dotdot =>
    if (c :: rev).length > dotdot ∧ last ≠ 47 then backUp rev c dotdot else c :: rev

/-- The `..` case of `Clean` when `out.w > dotdot`: the last element of the buffer is
dropped, with the slash before it. -/
def backtrack (out : GoString) (dotdot : Nat) : GoString :=
  match out.reverse with
  | [] => []
  | c :: rev => (backUp rev c dotdot).reverse

/-- The loop `for r < n` of `Clean` over the rest of the path. -/
def cleanLoop (rooted : Bool) : GoString → GoString → Nat → Bool → GoString
  | [], out, _, _ => out
  | c :: rest, out, dotdot, copying =>
    if copying then
      if c = 47 then cleanLoop rooted rest out dotdot false
      else cleanLoop rooted rest (out ++ [c]) dotdot true
    else if c = 47 then cleanLoop rooted rest out dotdot false
    else if c = 46 ∧ (rest = [] ∨ rest.head? = some 47) then
      cleanLoop rooted rest out dotdot false
    else
      match rest with
      | d :: rest2 =>
        if c = 46 ∧ d = 46 ∧ (rest2 = [] ∨ rest2.head? = some 47) then
          if out.length > dotdot then cleanLoop rooted rest2 (backtrack out dotdot) dotdot false
          else if ¬ rooted then
            cleanLoop rooted rest2 ((if out.length > 0 then out ++ [47] else out) ++ [46, 46])
              ((if out.length > 0 then out ++ [47] else out) ++ [46, 46]).length false
          else cleanLoop rooted rest2 out dotdot false
        else
          cleanLoop rooted (d :: rest2)
            ((if (rooted ∧ out.length ≠ 1) ∨ (¬ rooted ∧ out.length ≠ 0) then out ++ [47]
              else out) ++ [c]) dotdot true
      | [] =>
        (if (rooted ∧ out.length ≠ 1) ∨ (¬ rooted ∧ out.length ≠ 0) then out ++ [47]
          else out) ++ [c]

/-- The function `path.Clean`. -/
def Clean (path : GoString) : GoString :=
  match path with
  | [] => [46]
  | c :: rest =>
    let out := if c = 47 then cleanLoop true rest [47] 1 false
      else cleanLoop false (c :: rest) [] 0 false
    if out.length = 0 then [46] else out

end Path

/-! ## The `view` command (`view.go`) -/

namespace view

/-- The fields of `grpc.ConnectionConfig` that `invoke` sets; `ConnectionTimeout` is a
`time.Duration`, a number of nanoseconds. -/
structure ConnectionConfig where
  Address : GoString
  ConnectionTimeout : Nat
  TLSEnabled : Bool
  TLSRootCertFile : GoString
deriving DecidableEq

/-- The constant `time.Second`, in nanoseconds. -/
def Second : Nat := 1000000000

/-- The field of `cli.Config.TLSConfig` that `invoke` reads. -/
structure TLSConfig where
  PeerCACertPath : GoString
deriving DecidableEq

/-- The fields of `cli.Config.SignerConfig` that `invoke` reads. -/
structure SignerConfig where
  IdentityPath : GoString
  KeyPath : GoString
deriving DecidableEq

/-- The argument `config cli.Config` of `invoke`. -/
structure Config where
  TLSConfig : TLSConfig
  SignerConfig : SignerConfig
deriving DecidableEq

/-- The signing identity returned by `view.NewX509SigningIdentity`, an opaque handle. -/
structure SigningIdentity where
  id : Nat
deriving DecidableEq

/-- The client returned by `view.NewClient`, an opaque handle. -/
structure Client where
  id : Nat
deriving DecidableEq

/-- The `interface{}` returned by `CallView`, as the type switch of `invoke` sees it:
a `[]byte`, or a value of any other type, which is represented by the text that `fmt`
prints for it by default. -/
inductive Result where
  | bytes (v : Bytes)
  | other (text : GoString)
deriving DecidableEq

/-- The calls by which `invoke` leaves the program, with their arguments. -/
inductive Event where
  | ReadAllStdin
  | NewX509SigningIdentity (identityPath keyPath : GoString)
  | NewClient (cc : ConnectionConfig) (signer : SigningIdentity)
  | CallView (c : Client) (fid : GoString) (rawInput : Option Bytes)
  | Println (text : GoString)
deriving DecidableEq

/-- What the surroundings answer to each call: `ioutil.ReadAll(os.Stdin)`,
`path.Clean` (of which `Path.Clean` is the model; the theorems on `invoke` hold for any
function in its place), `view.NewX509SigningIdentity`, `view.NewClient` and
`(*Client).CallView`.  A Go result `(v, err)` is `Except.ok v` when `err` is nil and
`Except.error err` otherwise (the code never uses `v` beside a non-nil error). -/
structure Env where
  ReadAllStdin : Except GoError Bytes
  Clean : GoString → GoString
  NewX509SigningIdentity : GoString → GoString → Except GoError SigningIdentity
  NewClient : ConnectionConfig → SigningIdentity → Except GoError Client
  CallView : Client → GoString → Option Bytes → Except GoError Result

/-- `path.Join`: the elements are joined with slashes, leading empty elements are
dropped, and the result is cleaned; if all elements are empty the result is empty. -/
def pathJoin (clean : GoString → GoString) (elem : List GoString) : GoString :=
  if (elem.map List.length).sum = 0 then []
  else clean (elem.foldl (fun buf e =>
    if buf.length > 0 ∨ e ≠ [] then (if buf.length > 0 then buf ++ [47] else buf) ++ e
    else buf) [])

/-- The command state `type invokeCmd struct`.  The four flag fields are pointers,
`rawInput` is a slice that starts out nil. -/
structure invokeCmd where
  endpoint : Option GoString
  input : Option GoString
  function : Option GoString
  stdin : Option Bool
  rawInput : Option Bytes
deriving DecidableEq

/-- What a call of `validateInput` leaves behind: the returned error (`none` for
nil), the command state after the call, and the calls made. -/
structure Validated where
  err : Option GoError
  ic : invokeCmd
  trace : List Event
deriving DecidableEq

/-- The method `(*invokeCmd).validateInput`. -/
def validateInput (env : Env) (ic : invokeCmd) : Validated :=
  if ic.endpoint = none then
    ⟨some (Errorf "endpoint must be specified"), ic, []⟩
  else if ic.function = none then
    ⟨some (Errorf "function name must be specified"), ic, []⟩
  else if ic.stdin = some true then
    match env.ReadAllStdin with
    | .error err =>
      ⟨some (Errorf ("failed reading input from stdin: " ++ err.msg)), ic, [Event.ReadAllStdin]⟩
    | .ok stdinInput => ⟨none, { ic with rawInput := some stdinInput }, [Event.ReadAllStdin]⟩
  else
    match ic.input with
    | none => ⟨none, ic, []⟩
    | some input =>
      match Base64.DecodeString input with
      | some rawBase64Encoded => ⟨none, { ic with rawInput := some rawBase64Encoded }, []⟩
      | none => ⟨none, { ic with rawInput := some input }, []⟩

/-- The flags of the command `view` as they stand on a command line, `none` for a flag
that is not given. -/
structure Flags where
  endpoint : Option GoString
  input : Option GoString
  function : Option GoString
  stdin : Option Bool

/-- The function `RegisterViewCommand`, followed by the parsing of the command line.
The command is `&invokeCmd{}`, so `rawInput` is nil, and each flag field is the pointer
that `String()` or `Bool()` of kingpin returns: it is never nil and points to the value
of the flag, which is the zero value (`""`, `false`) when the flag is not given. -/
def RegisterViewCommand (args : Flags) : invokeCmd :=
  { endpoint := some (args.endpoint.getD [])
    input := some (args.input.getD [])
    function := some (args.function.getD [])
    stdin := some (args.stdin.getD false)
    rawInput := none }

/-- The command states that arise: a command is built with `rawInput` nil (the
composite literal `&invokeCmd{}`, whatever is then assigned to the four flag fields),
and from then on `rawInput` is written by `validateInput` only. -/
inductive CommandState : invokeCmd → Prop where
  | built (endpoint input function : Option GoString) (stdin : Option Bool) :
    CommandState ⟨endpoint, input, function, stdin, none⟩
  | validated (env : Env) (ic : invokeCmd) :
    CommandState ic → CommandState (validateInput env ic).ic

/-- The method `(*invokeCmd).GetHash`. -/
def GetHash : Sha256.digest := Sha256.New

/-- The method `(*invokeCmd).Hash`; the second component is the returned error. -/
def Hash (msg : Bytes) : Bytes × Option GoError :=
  let h := Sha256.New
  let h := Sha256.Write h msg
  (Sha256.Sum h [], none)

/-- How a call of `invoke` ends: it returns an error (`none` for nil), or it
dereferences a nil pointer. -/
inductive Outcome where
  | returned (err : Option GoError)
  | nilDereference
deriving DecidableEq

/-- What a call of `invoke` leaves behind: how it ended, the command state, the
connection configuration `cc` if it was built, and the calls made, in order. -/
structure Invoked where
  out : Outcome
  ic : invokeCmd
  cc : Option ConnectionConfig
  trace : List Event
deriving DecidableEq

/-- The text written by `fmt.Println` in the type switch of `invoke`. -/
def render : Result → GoString
  | .bytes v => v ++ [10]
  | .other text => text ++ [10]

/-- The method `(*invokeCmd).invoke`.  The third argument of `view.NewClient` is the
command itself in its role as hasher (`GetHash`, `Hash`), which does not depend on
the command state. -/
def invoke (env : Env) (config : Config) (ic : invokeCmd) : Invoked :=
  let v := validateInput env ic
  match v.err with
  | some err => ⟨.returned (some err), v.ic, none, v.trace⟩
  | none =>
    match v.ic.endpoint with
    | none => ⟨.nilDereference, v.ic, none, v.trace⟩
    | some endpoint =>
      let cc : ConnectionConfig :=
        { Address := endpoint
          TLSEnabled := true
          TLSRootCertFile := pathJoin env.Clean [config.TLSConfig.PeerCACertPath]
          ConnectionTimeout := 10 * Second }
      let t1 := v.trace ++
        [Event.NewX509SigningIdentity config.SignerConfig.IdentityPath config.SignerConfig.KeyPath]
      match env.NewX509SigningIdentity config.SignerConfig.IdentityPath
          config.SignerConfig.KeyPath with
      | .error err => ⟨.returned (some err), v.ic, some cc, t1⟩
      | .ok signer =>
        let t2 := t1 ++ [Event.NewClient cc signer]
        match env.NewClient cc signer with
        | .error err => ⟨.returned (some err), v.ic, some cc, t2⟩
        | .ok c =>
          match v.ic.function with
          | none => ⟨.nilDereference, v.ic, some cc, t2⟩
          | some function =>
            let t3 := t2 ++ [Event.CallView c function v.ic.rawInput]
            match env.CallView c function v.ic.rawInput with
            | .error err => ⟨.returned (some err), v.ic, some cc, t3⟩
            | .ok res => ⟨.returned none, v.ic, some cc, t3 ++ [Event.Println (render res)]⟩

/-! ### Inputs used in the examples -/

/-- An environment in which standard input answers `stdin` and every later call
succeeds, the view returning the bytes `ok`. -/
def exampleEnv (stdin : Except GoError Bytes) : Env :=
  { ReadAllStdin := stdin
    Clean := Path.Clean
    NewX509SigningIdentity := fun _ _ => .ok ⟨1⟩
    NewClient := fun _ _ => .ok ⟨1⟩
    CallView := fun _ _ _ => .ok (.bytes (ascii "ok")) }

/-- A configuration with a CA certificate, an identity and a key. -/
def exampleConfig : Config :=
  ⟨⟨ascii "tls/ca.pem"⟩, ⟨ascii "msp/cert.pem", ascii "msp/key.pem"⟩⟩

/-- Scenario A: endpoint `node1:7051`, function `init`, literal input `aGVsbG8=`. -/
def scenarioA : invokeCmd :=
  { endpoint := some (ascii "node1:7051")
    input := some (ascii "aGVsbG8=")
    function := some (ascii "init")
    stdin := some false
    rawInput := none }

/-- Scenario B: as scenario A, with the stdin flag set and the literal input
`ignored`. -/
def scenarioB : invokeCmd :=
  { endpoint := some (ascii "node1:7051")
    input := some (ascii "ignored")
    function := some (ascii "init")
    stdin := some true
    rawInput := none }

/-- A command whose literal input, `hello world`, is not base64. -/
def plainTextCmd : invokeCmd :=
  { endpoint := some (ascii "node1:7051")
    input := some (ascii "hello world")
    function := some (ascii "init")
    stdin := none
    rawInput := none }

/-- A newly built command with endpoint and function only. -/
def noInputCmd : invokeCmd :=
  { endpoint := some (ascii "node1:7051")
    input := none
    function := some (ascii "init")
    stdin := none
    rawInput := none }

/-- The command line `view --endpoint node1:7051 --function init`. -/
def flagsNoInput : Flags := ⟨some (ascii "node1:7051"), none, some (ascii "init"), none⟩

/-- The command line `view --function init`: the flag `--endpoint` is omitted. -/
def flagsNoEndpoint : Flags := ⟨none, none, some (ascii "init"), none⟩

/-- The command line `view --endpoint node1:7051 --stdin`: the flag `--function` is
omitted. -/
def flagsNoFunction : Flags := ⟨some (ascii "node1:7051"), none, none, some true⟩

/-- A configuration whose CA certificate path is not in its shortest form. -/
def uncleanConfig : Config :=
  ⟨⟨ascii "/etc/fsc/./certs//ca.pem"⟩, ⟨ascii "msp/cert.pem", ascii "msp/key.pem"⟩⟩

/-- An environment in which reading standard input fails with `unexpected EOF`. -/
def brokenStdinEnv : Env := exampleEnv (.error ⟨"unexpected EOF"⟩)

/-- The event is a call of `CallView`. -/
def Event.isCallView : Event → Bool
  | .CallView _ _ _ => true
  | _ => false

/-- The payload is empty or absent: a nil slice or a slice of length zero. -/
def emptyPayload (rawInput : Option Bytes) : Prop := rawInput = none ∨ rawInput = some []

end view

/-! ## encoding/hex -/

namespace Hex

/-- The constant `hextable`. -/
def hextable : GoString := ascii "0123456789abcdef"

/-- The error `ErrLength`. -/
def ErrLength : GoError := ⟨"encoding/hex: odd length hex string"⟩

/-- The digits `udigits` with which `fmt` writes a code point. -/
def udigit (n : Nat) : Char := "0123456789ABCDEF".toList.getD n '0'

/-- The function `strconv.IsPrint` on a rune below 256. -/
def isPrint (b : Byte) : Bool :=
  (0x20 ≤ b.val && b.val ≤ 0x7E) || (0xA1 ≤ b.val && b.val ≤ 0xFF && b.val ≠ 0xAD)

/-- The text of a byte under the verb `%#U`: `U+0067` followed, for a printable
character, by the character between single quotes. -/
def formatU (b : Byte) : String :=
  "U+00" ++ String.mk [udigit (b.val / 16), udigit (b.val % 16)] ++
    (if isPrint b then
      " " ++ String.mk [Char.ofNat 39, Char.ofNat b.val, Char.ofNat 39]
    else "")

/-- The error `InvalidByteError(b)`. -/
def InvalidByteError (b : Byte) : GoError := ⟨"encoding/hex: invalid byte: " ++ formatU b⟩

/-- The function `fromHexChar`: the value of a hexadecimal digit, `none` where Go
returns `false`. -/
def fromHexChar (c : Byte) : Option Nat :=
  if 48 ≤ c.val ∧ c.val ≤ 57 then some (c.val - 48)
  else if 97 ≤ c.val ∧ c.val ≤ 102 then some (c.val - 97 + 10)
  else if 65 ≤ c.val ∧ c.val ≤ 70 then some (c.val - 65 + 10)
  else none

/-- `hex.EncodeToString`: two digits of `hextable` for every byte. -/
def EncodeToString : Bytes → GoString
  | [] => []
  | v :: rest =>
    hextable.getD (v.val >>> 4) 0 :: hextable.getD (v.val &&& 0x0f) 0 :: EncodeToString rest

/-- `hex.DecodeString`: the bytes decoded before the first fault (`src[:n]`) and the
error, `none` for nil.  Pairs of digits are decoded in turn; a character that is no
digit is reported before an odd length. -/
def DecodeString : GoString → Bytes × Option GoError
  | [] => ([], none)
  | [p] =>
    match fromHexChar p with
    | none => ([], some (InvalidByteError p))
    | some _ => ([], some ErrLength)
  | p :: q :: rest =>
    match fromHexChar p with
    | none => ([], some (InvalidByteError p))
    | some a =>
      match fromHexChar q with
      | none => ([], some (InvalidByteError q))
      | some b =>
        (toByte ((a <<< 4) ||| b) :: (DecodeString rest).1, (DecodeString rest).2)

end Hex

/-! ## collections (`platform/common/utils/collections`) -/

namespace collections

/-- Modelled from the spec: what a call of `Next` on a `collections.Iterator` answers
(the package is missing from the sources): an element together with an error (`none`
for nil), or the dereference of a nil iterator. -/
inductive Answer (α : Type) where
  | returned (v : α) (err : Option GoError)
  | nilDereference

/-- Modelled from the spec: a value of the interface `collections.Iterator` (missing
from the sources): nil, a source given by what its successive calls of `Next` answer,
or the iterator that `collections.Map` builds from an iterator and a transformer. -/
inductive Iterator (α : Type) where
  | nil
  | source (answers : Nat → α × Option GoError)
  | mapped (it : Iterator α) (transformer : α → α × Option GoError)

/-- Modelled from the spec: the answer of call number `i` of `Next` (missing from the
sources).  A mapped iterator maps lazily: each of its calls makes one call of the
iterator below and applies the transformer to that element; an error from below is
passed on with the zero value, without applying the transformer. -/
def Iterator.Next {α : Type} [Inhabited α] : Iterator α → Nat → Answer α
  | .nil, _ => .nilDereference
  | .source answers, i => .returned (answers i).1 (answers i).2
  | .mapped it transformer, i =>
    match Iterator.Next it i with
    | .nilDereference => .nilDereference
    | .returned _ (some err) => .returned default (some err)
    | .returned v none => .returned (transformer v).1 (transformer v).2

/-- Modelled from the spec: `collections.Map` (missing from the sources), which maps a
transformer lazily over an iterator. -/
def Map {α : Type} (it : Iterator α) (transformer : α → α × Option GoError) : Iterator α :=
  .mapped it transformer

end collections

/-! ## The postgres key codec (`encode.go`) -/

namespace postgres

/-- The type `driver.UnversionedRead`: a key and the raw value stored under it. -/
structure UnversionedRead where
  Key : GoString
  Raw : Bytes
deriving DecidableEq

/-- The function `identity`. -/
def identity (a : GoString) : GoString × Option GoError := (a, none)

/-- The function `decode`: the returned string and the returned error. -/
def decode (s : GoString) : GoString × Option GoError :=
  match Hex.DecodeString s with
  | (_, some err) => ([], some err)
  | (b, none) => (b, none)

/-- The function `encode`. -/
def encode (s : GoString) : GoString := Hex.EncodeToString s

/-- What a call of `decodeUnversionedRead` leaves behind: the record that the
argument points to, as it is after the call (`none` for a nil argument), the returned
record (`none` for nil) and the returned error. -/
structure DecodedRead where
  v : Option UnversionedRead
  res : Option UnversionedRead
  err : Option GoError
deriving DecidableEq

/-- The function `decodeUnversionedRead`.  It only reads from `v`; the record it
returns is newly built. -/
def decodeUnversionedRead (v : Option UnversionedRead) : DecodedRead :=
  match v with
  | none => ⟨none, none, none⟩
  | some r =>
    match decode r.Key with
    | (_, some err) => ⟨some r, none, some err⟩
    | (key, none) => ⟨some r, some ⟨key, r.Raw⟩, none⟩

/-- The generic function `decodeIterator`; a nil iterator is `Iterator.nil`. -/
def decodeIterator {R : Type} (it : collections.Iterator (Option R)) (err : Option GoError)
    (transformer : Option R → Option R × Option GoError) :
    collections.Iterator (Option R) × Option GoError :=
  match err with
  | some e => (.nil, some e)
  | none => (collections.Map it transformer, none)

/-- The function `decodeUnversionedReadIterator`. -/
def decodeUnversionedReadIterator (it : collections.Iterator (Option UnversionedRead))
    (err : Option GoError) :
    collections.Iterator (Option UnversionedRead) × Option GoError :=
  decodeIterator it err (fun v => ((decodeUnversionedRead v).res, (decodeUnversionedRead v).err))

/-- A hexadecimal digit, in the words of the claims: `0-9`, `a-f` or `A-F`. -/
def isHexDigit (c : Byte) : Bool :=
  (48 ≤ c.val && c.val ≤ 57) || (97 ≤ c.val && c.val ≤ 102) || (65 ≤ c.val && c.val ≤ 70)

/-- Valid hexadecimal, in the words of the claims: even length and hexadecimal digits
only. -/
def validHex (s : GoString) : Bool := s.length % 2 == 0 && s.all isHexDigit

/-! ### Inputs used in the examples -/

/-- A stored record: the key `key1` in hexadecimal and the value `value`. -/
def storedRead : UnversionedRead := ⟨ascii "6b657931", ascii "value"⟩

/-- A record whose key `6b6g` is not hexadecimal. -/
def brokenRead : UnversionedRead := ⟨ascii "6b6g", ascii "value"⟩

/-- An iterator over one stored record: the first call of `Next` answers the record,
the later ones answer nil, the end of the iteration. -/
def storedIterator : collections.Iterator (Option UnversionedRead) :=
  .source (fun i => if i = 0 then (some storedRead, none) else (none, none))

end postgres

/-! ## Theorems: base64 -/

namespace Base64

theorem or_eq_add_of_dvd (x y k : Nat) (hx : 2 ^ k ∣ x) (hy : y < 2 ^ k) : x ||| y = x + y := by
  obtain ⟨m, rfl⟩ := hx
  exact (Nat.mul_add_lt_is_or hy m).symm

theorem and_63 (x : Nat) : x &&& 0x3F = x % 64 :=
  Nat.and_pow_two_sub_one_eq_mod x 6

theorem sextet_lt (x : Nat) : x &&& 0x3F < 64 := by
  rw [and_63]; exact Nat.mod_lt _ (by decide)

theorem decodeMap_encodeMap_fin : ∀ i : Fin 64, decodeMap (encodeMap i.val) = i.val := by
  decide

theorem decodeMap_encodeMap (i : Nat) (h : i < 64) : decodeMap (encodeMap i) = i :=
  decodeMap_encodeMap_fin ⟨i, h⟩

/-- A character of the alphabet is stored as the next sextet of the quantum. -/
theorem decodeLoop_sextet (i : Nat) (h : i < 64) (rest : GoString) (dbuf : List Nat)
    (hl : dbuf.length < 3) :
    decodeLoop (encodeMap i :: rest) dbuf = decodeLoop rest (dbuf ++ [i]) := by
  have h1 : decodeMap (encodeMap i) = i := decodeMap_encodeMap i h
  have h2 : dbuf.length ≠ 3 := by omega
  have h3 : i ≠ 255 := by omega
  simp [decodeLoop, h1, h2, h3]

/-- The fourth character of a quantum completes it and three bytes are output. -/
theorem decodeLoop_sextet_last (i : Nat) (h : i < 64) (rest : GoString) (dbuf : List Nat)
    (hl : dbuf.length = 3) :
    decodeLoop (encodeMap i :: rest) dbuf
      = (decodeLoop rest []).map (fun tl => quantumBytes (dbuf ++ [i]) 4 ++ tl) := by
  have h1 : decodeMap (encodeMap i) = i := decodeMap_encodeMap i h
  have h3 : i ≠ 255 := by omega
  simp [decodeLoop, h1, hl, h3]

theorem decodeLoop_pad_one (dbuf : List Nat) (hl : dbuf.length = 3) :
    decodeLoop [padChar] dbuf = some (quantumBytes dbuf 3) := by
  have h1 : decodeMap padChar = 0xff := by decide
  have h2 : isNewline padChar = false := by decide
  simp [decodeLoop, h1, h2, hl, skipNewlines]

theorem decodeLoop_pad_two (dbuf : List Nat) (hl : dbuf.length = 2) :
    decodeLoop [padChar, padChar] dbuf = some (quantumBytes dbuf 2) := by
  have h1 : decodeMap padChar = 0xff := by decide
  have h2 : isNewline padChar = false := by decide
  simp [decodeLoop, h1, h2, hl, skipNewlines]

/-- Three bytes packed by shifts are the base-256 number with these digits. -/
theorem pack_bytes (a b c : Nat) (hb : b < 256) (hc : c < 256) :
    a <<< 16 ||| b <<< 8 ||| c = a * 65536 + b * 256 + c := by
  rw [Nat.shiftLeft_eq, Nat.shiftLeft_eq]
  rw [or_eq_add_of_dvd (a * 2 ^ 16) (b * 2 ^ 8) 16 (Dvd.intro_left _ rfl) (by omega)]
  rw [or_eq_add_of_dvd _ c 8 ⟨a * 256 + b, by ring⟩ (by omega)]
  norm_num

/-- Four sextets packed by shifts are the base-64 number with these digits. -/
theorem pack_sextets (s0 s1 s2 s3 : Nat) (h1 : s1 < 64) (h2 : s2 < 64) (h3 : s3 < 64) :
    s0 <<< 18 ||| s1 <<< 12 ||| s2 <<< 6 ||| s3 = s0 * 262144 + s1 * 4096 + s2 * 64 + s3 := by
  rw [Nat.shiftLeft_eq, Nat.shiftLeft_eq, Nat.shiftLeft_eq]
  rw [or_eq_add_of_dvd (s0 * 2 ^ 18) (s1 * 2 ^ 12) 18 (Dvd.intro_left _ rfl) (by omega)]
  rw [or_eq_add_of_dvd _ (s2 * 2 ^ 6) 12 ⟨s0 * 64 + s1, by ring⟩ (by omega)]
  rw [or_eq_add_of_dvd _ s3 6 ⟨s0 * 4096 + s1 * 64 + s2, by ring⟩ (by omega)]
  norm_num

theorem quantumBytes_three (a b c : Byte) :
    quantumBytes
      [((a.val <<< 16 ||| b.val <<< 8 ||| c.val) >>> 18) &&& 0x3F,
       ((a.val <<< 16 ||| b.val <<< 8 ||| c.val) >>> 12) &&& 0x3F,
       ((a.val <<< 16 ||| b.val <<< 8 ||| c.val) >>> 6) &&& 0x3F,
       (a.val <<< 16 ||| b.val <<< 8 ||| c.val) &&& 0x3F] 4 = [a, b, c] := by
  have ha := a.isLt
  have hb := b.isLt
  have hc := c.isLt
  rw [pack_bytes a.val b.val c.val hb hc]
  simp only [quantumBytes, List.getD_cons_zero, List.getD_cons_succ, and_63,
    Nat.shiftRight_eq_div_pow]
  rw [pack_sextets _ _ _ _ (Nat.mod_lt _ (by decide)) (Nat.mod_lt _ (by decide))
    (Nat.mod_lt _ (by decide))]
  simp only [toByte, Nat.shiftRight_eq_div_pow, List.take]
  norm_num
  refine ⟨?_, ?_, ?_⟩ <;> apply Fin.ext <;> simp <;> omega

theorem quantumBytes_two (a b : Byte) :
    quantumBytes
      [((a.val <<< 16 ||| b.val <<< 8) >>> 18) &&& 0x3F,
       ((a.val <<< 16 ||| b.val <<< 8) >>> 12) &&& 0x3F,
       ((a.val <<< 16 ||| b.val <<< 8) >>> 6) &&& 0x3F] 3 = [a, b] := by
  have ha := a.isLt
  have hb := b.isLt
  have hv : a.val <<< 16 ||| b.val <<< 8 = a.val * 65536 + b.val * 256 + 0 := by
    rw [← pack_bytes a.val b.val 0 hb (by decide)]; simp
  rw [hv]
  simp only [quantumBytes, List.getD_cons_zero, List.getD_cons_succ, List.getD_nil, and_63,
    Nat.shiftRight_eq_div_pow]
  rw [pack_sextets _ _ _ _ (Nat.mod_lt _ (by decide)) (Nat.mod_lt _ (by decide)) (by decide)]
  simp only [toByte, Nat.shiftRight_eq_div_pow, List.take]
  norm_num
  refine ⟨?_, ?_⟩ <;> apply Fin.ext <;> simp <;> omega

theorem quantumBytes_one (a : Byte) :
    quantumBytes
      [((a.val <<< 16) >>> 18) &&& 0x3F, ((a.val <<< 16) >>> 12) &&& 0x3F] 2 = [a] := by
  have ha := a.isLt
  have hv : a.val <<< 16 = a.val * 65536 + 0 * 256 + 0 := by
    rw [← pack_bytes a.val 0 0 (by decide) (by decide)]; simp
  rw [hv]
  simp only [quantumBytes, List.getD_cons_zero, List.getD_cons_succ, List.getD_nil, and_63,
    Nat.shiftRight_eq_div_pow]
  rw [pack_sextets _ _ _ _ (Nat.mod_lt _ (by decide)) (by decide) (by decide)]
  simp only [toByte, Nat.shiftRight_eq_div_pow, List.take]
  norm_num
  apply Fin.ext; simp; omega

theorem decodeLoop_EncodeToString (b : Bytes) :
    decodeLoop (EncodeToString b) [] = some b := by
  induction b using EncodeToString.induct with
  | case1 a b c rest ih =>
    simp only [EncodeToString]
    rw [decodeLoop_sextet _ (sextet_lt _) _ _ (by simp),
      decodeLoop_sextet _ (sextet_lt _) _ _ (by simp),
      decodeLoop_sextet _ (sextet_lt _) _ _ (by simp),
      decodeLoop_sextet_last _ (sextet_lt _) _ _ (by simp), ih]
    simp only [List.nil_append, List.cons_append, Option.map_some']
    rw [quantumBytes_three]
    rfl
  | case2 a b =>
    simp only [EncodeToString]
    rw [decodeLoop_sextet _ (sextet_lt _) _ _ (by simp),
      decodeLoop_sextet _ (sextet_lt _) _ _ (by simp),
      decodeLoop_sextet _ (sextet_lt _) _ _ (by simp),
      decodeLoop_pad_one _ (by simp)]
    simp only [List.nil_append, List.cons_append]
    rw [quantumBytes_two]
  | case3 a =>
    simp only [EncodeToString]
    rw [decodeLoop_sextet _ (sextet_lt _) _ _ (by simp),
      decodeLoop_sextet _ (sextet_lt _) _ _ (by simp),
      decodeLoop_pad_two _ (by simp)]
    simp only [List.nil_append, List.cons_append]
    rw [quantumBytes_one]
  | case4 => simp [EncodeToString, decodeLoop]

/-- Decoding inverts encoding: `DecodeString(EncodeToString(b))` is `b` with a nil
error. -/
theorem DecodeString_EncodeToString (b : Bytes) : DecodeString (EncodeToString b) = some b :=
  decodeLoop_EncodeToString b

/-- A byte that is neither in the alphabet, nor a newline, nor the padding character
makes the decoder fail wherever it stands. -/
theorem decodeLoop_foreign (s : GoString) (c : Byte) (hc : c ∈ s)
    (hmap : decodeMap c = 0xff) (hnl : isNewline c = false) (hpad : c ≠ padChar) :
    ∀ dbuf, decodeLoop s dbuf = none := by
  have hskip : ∀ t : GoString, c ∈ t → skipNewlines t ≠ [] ∧ c ∈ skipNewlines t := by
    intro t
    induction t with
    | nil => intro h; simp at h
    | cons d t ih =>
      intro h
      by_cases hd : isNewline d = true
      · have hcd : c ≠ d := by
          intro hcd; rw [hcd, hd] at hnl; exact Bool.noConfusion hnl
        have hct : c ∈ t := by
          rcases List.mem_cons.mp h with h | h
          · exact absurd h hcd
          · exact h
        have := ih hct
        simpa [skipNewlines, List.dropWhile, hd] using this
      · simp only [Bool.not_eq_true] at hd
        simp [skipNewlines, List.dropWhile, hd, h]
  induction s with
  | nil => simp at hc
  | cons d rest ih =>
    intro dbuf
    rcases List.mem_cons.mp hc with h | h
    · subst h
      simp [decodeLoop, hmap, hnl, hpad]
    · have ih := ih h
      unfold decodeLoop
      split_ifs with h1 h2 h3 h4 h5 h6 h7
      · rw [ih]; rfl
      · exact ih _
      · exact ih _
      · rfl
      · rfl
      · obtain ⟨hne, hmem⟩ := hskip rest h
        split
        · rename_i heq; exact absurd heq hne
        · rename_i p rest2 heq
          split_ifs with h8 h9
          · rfl
          · rfl
          · exfalso
            rw [heq] at hmem
            rcases List.mem_cons.mp hmem with h10 | h10
            · simp only [ne_eq, Decidable.not_not] at h8
              exact hpad (h10.trans h8)
            · exact h9 (hskip rest2 h10).1
      · rfl
      · exact absurd (hskip rest h).1 h7

end Base64

/-! ## Theorems: sha256 -/

namespace Sha256

theorem blockLoop_append (k : Nat) : ∀ (h : List Nat) (p q : Bytes),
    k * chunk ≤ p.length → blockLoop k h (p ++ q) = blockLoop k h p := by
  induction k with
  | zero => intro h p q _; rfl
  | succ k ih =>
    intro h p q hk
    have h64 : chunk ≤ p.length := by
      have : (k + 1) * chunk = k * chunk + chunk := by ring
      omega
    simp only [blockLoop]
    rw [List.take_append_of_le_length h64, List.drop_append_of_le_length h64]
    apply ih
    rw [List.length_drop]
    have : (k + 1) * chunk = k * chunk + chunk := by ring
    omega

theorem blockLoop_add (m : Nat) : ∀ (n : Nat) (h : List Nat) (p : Bytes),
    blockLoop (m + n) h p = blockLoop n (blockLoop m h p) (p.drop (m * chunk)) := by
  induction m with
  | zero => intro n h p; simp [blockLoop]
  | succ m ih =>
    intro n h p
    have e : m + 1 + n = (m + n) + 1 := by omega
    rw [e]
    simp only [blockLoop]
    rw [ih, List.drop_drop]
    congr 2
    ring

theorem block_take (h : List Nat) (p : Bytes) :
    block h (p.take (p.length / chunk * chunk)) = blockLoop (p.length / chunk) h p := by
  have hle : p.length / chunk * chunk ≤ p.length := Nat.div_mul_le_self _ _
  have hlen : (p.take (p.length / chunk * chunk)).length = p.length / chunk * chunk := by
    rw [List.length_take]; exact Nat.min_eq_left hle
  have key := blockLoop_append (p.length / chunk) h (p.take (p.length / chunk * chunk))
    (p.drop (p.length / chunk * chunk)) (by rw [hlen])
  rw [List.take_append_drop] at key
  unfold block
  rw [hlen, Nat.mul_div_cancel _ (by decide : 0 < chunk), key]

/-- With no pending bytes, the last two blocks of `Write` compress the full blocks
of `q` and keep the rest. -/
theorem keepRest_writeBlocks (e : digest) (q : Bytes) (hx : e.x = []) :
    keepRest (writeBlocks (e, q))
      = ⟨blockLoop (q.length / chunk) e.h q, q.drop (q.length / chunk * chunk), e.len⟩ := by
  by_cases hq : q.length ≥ chunk
  · have hw : writeBlocks (e, q)
        = ({ e with h := block e.h (q.take (q.length / chunk * chunk)) },
            q.drop (q.length / chunk * chunk)) := by
      simp [writeBlocks, hq]
    rw [hw, block_take]
    by_cases hr : (q.drop (q.length / chunk * chunk)).length > 0
    · simp only [keepRest]
      rw [if_pos hr]
    · have hnil : q.drop (q.length / chunk * chunk) = [] :=
        List.length_eq_zero.mp (by omega)
      simp [keepRest, hnil, hx]
  · have hw : writeBlocks (e, q) = (e, q) := by simp [writeBlocks, hq]
    have hk : q.length / chunk = 0 := Nat.div_eq_of_lt (by omega)
    rw [hw, hk]
    by_cases hr : q.length > 0
    · simp [keepRest, hr, blockLoop]
    · have hnil : q = [] := List.length_eq_zero.mp (by omega)
      subst hnil
      cases e
      simp_all [keepRest, blockLoop]

/-- What `Write` computes: the pending bytes followed by `p` are cut into blocks, the
full blocks are compressed in order and the rest is kept. -/
theorem Write_eq (d : digest) (p : Bytes) (hx : d.x.length < chunk) :
    Write d p = ⟨blockLoop ((d.x ++ p).length / chunk) d.h (d.x ++ p),
      (d.x ++ p).drop ((d.x ++ p).length / chunk * chunk),
      (d.len + p.length) % 2 ^ 64⟩ := by
  have hc : chunk = 64 := rfl
  unfold Write
  by_cases h0 : d.x.length > 0
  · by_cases hfull : d.x.length + p.length < chunk
    · -- the pending block is not filled
      have hn : min (chunk - d.x.length) p.length = p.length := by omega
      have hk : (d.x ++ p).length / chunk = 0 := by
        rw [List.length_append]; exact Nat.div_eq_of_lt hfull
      have hne : ¬ d.x.length + p.length = chunk := by omega
      have hf : fillPending { d with len := (d.len + p.length) % 2 ^ 64 } p
          = ({ d with len := (d.len + p.length) % 2 ^ 64, x := d.x ++ p }, []) := by
        simp [fillPending, h0, hn, hne]
      rw [hf, hk]
      simp [writeBlocks, keepRest, blockLoop, hc]
    · -- the pending block is filled and compressed
      have hn : min (chunk - d.x.length) p.length = chunk - d.x.length := by omega
      have hxl : (d.x ++ p.take (chunk - d.x.length)).length = chunk := by
        rw [List.length_append, List.length_take]; omega
      have hbuf : d.x ++ p
          = (d.x ++ p.take (chunk - d.x.length)) ++ p.drop (chunk - d.x.length) := by
        rw [List.append_assoc, List.take_append_drop]
      have hblock : block d.h (d.x ++ p.take (chunk - d.x.length))
          = blockLoop 1 d.h (d.x ++ p) := by
        rw [hbuf, blockLoop_append 1 _ _ _ (by rw [hxl]; omega)]
        unfold block
        rw [hxl]
        rfl
      have hdrop : (d.x ++ p).drop chunk = p.drop (chunk - d.x.length) := by
        have hd := List.drop_length (d.x ++ p.take (chunk - d.x.length))
        rw [hxl] at hd
        rw [hbuf, List.drop_append_of_le_length (by rw [hxl]), hd, List.nil_append]
      have hlen1 : (d.x ++ p).length = chunk + (p.drop (chunk - d.x.length)).length := by
        rw [hbuf, List.length_append, hxl]
      have hk : (d.x ++ p).length / chunk
          = 1 + (p.drop (chunk - d.x.length)).length / chunk := by
        rw [hlen1, Nat.add_div_left _ (by decide : 0 < chunk)]; omega
      have hloop : blockLoop ((d.x ++ p).length / chunk) d.h (d.x ++ p)
          = blockLoop ((p.drop (chunk - d.x.length)).length / chunk)
              (blockLoop 1 d.h (d.x ++ p)) (p.drop (chunk - d.x.length)) := by
        rw [hk, blockLoop_add, Nat.one_mul, hdrop]
      have hrest : (d.x ++ p).drop ((d.x ++ p).length / chunk * chunk)
          = (p.drop (chunk - d.x.length)).drop
              ((p.drop (chunk - d.x.length)).length / chunk * chunk) := by
        rw [hk, Nat.add_mul, Nat.one_mul, ← List.drop_drop, hdrop]
      have hf : fillPending { d with len := (d.len + p.length) % 2 ^ 64 } p
          = ({ d with len := (d.len + p.length) % 2 ^ 64,
                      h := block d.h (d.x ++ p.take (chunk - d.x.length)), x := [] },
              p.drop (chunk - d.x.length)) := by
        simp only [fillPending, h0, hn, hxl, if_true]
      rw [hf, keepRest_writeBlocks _ _ rfl, hloop, hrest, ← hblock]
  · have hnil : d.x = [] := List.length_eq_zero.mp (by omega)
    have hf : fillPending { d with len := (d.len + p.length) % 2 ^ 64 } p
        = ({ d with len := (d.len + p.length) % 2 ^ 64 }, p) := by
      simp [fillPending, hnil]
    rw [hf, keepRest_writeBlocks { d with len := (d.len + p.length) % 2 ^ 64 } p hnil, hnil]
    rfl

/-- After `Write` fewer than a block of bytes are pending. -/
theorem Write_pending_lt (d : digest) (p : Bytes) (hx : d.x.length < chunk) :
    (Write d p).x.length < chunk := by
  rw [Write_eq d p hx]
  simp only [List.length_drop]
  have hc : chunk = 64 := rfl
  rw [hc]
  omega

/-- Writing `a` and then `b` is writing `a ++ b`. -/
theorem Write_Write (d : digest) (a b : Bytes) (hx : d.x.length < chunk) :
    Write (Write d a) b = Write d (a ++ b) := by
  have hc : chunk = 64 := rfl
  have hx2 := Write_pending_lt d a hx
  rw [Write_eq (Write d a) b hx2, Write_eq d (a ++ b) hx, Write_eq d a hx]
  simp only []
  rw [← List.append_assoc]
  generalize d.x ++ a = buf
  have hle : buf.length / chunk * chunk ≤ buf.length := Nat.div_mul_le_self _ _
  have hrl : (buf.drop (buf.length / chunk * chunk)).length
      = buf.length - buf.length / chunk * chunk := List.length_drop _ _
  have hk : (buf ++ b).length / chunk
      = buf.length / chunk + (buf.drop (buf.length / chunk * chunk) ++ b).length / chunk := by
    rw [List.length_append, List.length_append, hrl, hc]
    omega
  have hd : (buf ++ b).drop (buf.length / chunk * chunk)
      = buf.drop (buf.length / chunk * chunk) ++ b := List.drop_append_of_le_length hle
  congr 1
  · rw [hk, blockLoop_add, blockLoop_append _ _ _ _ hle, hd]
  · rw [hk, Nat.add_mul, ← List.drop_drop, hd]
  · rw [List.length_append]
    omega

/-- Writing a message in pieces is writing it at once. -/
theorem foldl_Write (parts : List Bytes) : ∀ (d : digest) (p : Bytes), d.x.length < chunk →
    parts.foldl Write (Write d p) = Write d (p ++ parts.flatten) := by
  induction parts with
  | nil => intro d p _; simp
  | cons c cs ih =>
    intro d p hx
    rw [List.foldl_cons, List.flatten_cons, Write_Write d p c hx, ih d (p ++ c) hx,
      List.append_assoc]

/-- A new digest fed in pieces has the state of a new digest fed at once. -/
theorem foldl_Write_New (parts : List Bytes) :
    parts.foldl Write New = Write New parts.flatten := by
  have h0 : New = Write New [] := by decide
  have h := foldl_Write parts New [] (by decide)
  rw [← h0, List.nil_append] at h
  exact h

end Sha256

/-! ## Theorems: hex -/

namespace Hex

set_option maxRecDepth 100000 in
/-- The two digits written for a byte are read back as its two halves. -/
theorem digits_fin : ∀ v : Fin 256,
    fromHexChar (hextable.getD (v.val >>> 4) 0) = some (v.val >>> 4)
    ∧ fromHexChar (hextable.getD (v.val &&& 0x0f) 0) = some (v.val &&& 0x0f)
    ∧ toByte (((v.val >>> 4) <<< 4) ||| (v.val &&& 0x0f)) = v := by
  decide

/-- Decoding inverts encoding: `hex.DecodeString(hex.EncodeToString(b))` is `b` with a
nil error. -/
theorem DecodeString_hex_EncodeToString (b : Bytes) :
    DecodeString (EncodeToString b) = (b, none) := by
  induction b with
  | nil => rfl
  | cons v rest ih =>
    obtain ⟨h1, h2, h3⟩ := digits_fin v
    simp only [EncodeToString, DecodeString, h1, h2, h3, ih]

set_option maxRecDepth 100000 in
/-- The characters that `fromHexChar` accepts are the hexadecimal digits. -/
theorem fromHexChar_isSome_fin : ∀ c : Fin 256,
    (fromHexChar c).isSome = postgres.isHexDigit c := by
  decide

theorem isHexDigit_of_none (c : Byte) (h : fromHexChar c = none) :
    postgres.isHexDigit c = false := by
  rw [← fromHexChar_isSome_fin c, h]; rfl

theorem isHexDigit_of_some (c : Byte) (a : Nat) (h : fromHexChar c = some a) :
    postgres.isHexDigit c = true := by
  rw [← fromHexChar_isSome_fin c, h]; rfl

/-- `hex.DecodeString` returns a nil error exactly on the strings of even length made
of hexadecimal digits. -/
theorem DecodeString_ok_iff (s : GoString) :
    (DecodeString s).2 = none ↔ postgres.validHex s = true := by
  induction s using DecodeString.induct with
  | case1 => simp [DecodeString, postgres.validHex]
  | case2 p hp => simp [DecodeString, hp, postgres.validHex]
  | case3 p a hp => simp [DecodeString, hp, postgres.validHex]
  | case4 p q rest hp =>
    simp [DecodeString, hp, postgres.validHex, isHexDigit_of_none p hp]
  | case5 p q rest a hp hq =>
    simp [DecodeString, hp, hq, postgres.validHex, isHexDigit_of_none q hq]
  | case6 p q rest a hp b hq ih =>
    have h1 := isHexDigit_of_some p a hp
    have h2 := isHexDigit_of_some q b hq
    have hpar : (rest.length + 1 + 1) % 2 = rest.length % 2 := by omega
    simp only [DecodeString, hp, hq, ih]
    simp [postgres.validHex, h1, h2, hpar]

/-- When `hex.DecodeString` returns a nil error, two characters were read for every
byte returned. -/
theorem DecodeString_length (s : GoString) :
    (DecodeString s).2 = none → 2 * (DecodeString s).1.length = s.length := by
  induction s using DecodeString.induct with
  | case1 => simp [DecodeString]
  | case2 p hp => simp [DecodeString, hp]
  | case3 p a hp => simp [DecodeString, hp]
  | case4 p q rest hp => simp [DecodeString, hp]
  | case5 p q rest a hp hq => simp [DecodeString, hp, hq]
  | case6 p q rest a hp b hq ih =>
    simp only [DecodeString, hp, hq]
    intro h
    have := ih h
    simp only [List.length_cons]
    omega

end Hex

/-! ## Theorems: `validateInput` -/

namespace view

/-- C1: with endpoint and function present and the stdin flag set to true, if reading
standard input to its end yields the bytes `b`, then `validateInput` returns no error
and `rawInput` is exactly `b`, whatever the literal input is. -/
theorem validateInput_stdin (env : Env) (ic : invokeCmd) (b : Bytes)
    (hendpoint : ic.endpoint ≠ none) (hfunction : ic.function ≠ none)
    (hstdin : ic.stdin = some true) (hread : env.ReadAllStdin = .ok b) :
    (validateInput env ic).err = none ∧ (validateInput env ic).ic.rawInput = some b := by
  simp [validateInput, hendpoint, hfunction, hstdin, hread]

/-- Scenario B: the stream `raw-bytes` with the literal `ignored` resolves to
`raw-bytes`. -/
theorem validateInput_stdin_witness :
    (scenarioB.endpoint ≠ none ∧ scenarioB.function ≠ none ∧ scenarioB.stdin = some true
      ∧ scenarioB.input = some (ascii "ignored")
      ∧ (exampleEnv (.ok (ascii "raw-bytes"))).ReadAllStdin = .ok (ascii "raw-bytes"))
    ∧ (validateInput (exampleEnv (.ok (ascii "raw-bytes"))) scenarioB).err = none
    ∧ (validateInput (exampleEnv (.ok (ascii "raw-bytes"))) scenarioB).ic.rawInput
        = some (ascii "raw-bytes") :=
  ⟨⟨by decide, by decide, rfl, rfl, rfl⟩,
    validateInput_stdin (exampleEnv (.ok (ascii "raw-bytes"))) scenarioB (ascii "raw-bytes")
      (by decide) (by decide) rfl rfl⟩

/-- C2: with endpoint and function present, the stdin flag unset or false and a
literal input that `StdEncoding.DecodeString` accepts, `validateInput` returns no error
and `rawInput` is the decoded bytes; in particular the literal
`StdEncoding.EncodeToString(b)` resolves to `b`, for every byte sequence `b`. -/
theorem validateInput_base64 (env : Env) (ic : invokeCmd) (input : GoString)
    (hendpoint : ic.endpoint ≠ none) (hfunction : ic.function ≠ none)
    (hstdin : ic.stdin ≠ some true) (hinput : ic.input = some input) :
    (∀ raw, Base64.DecodeString input = some raw →
      (validateInput env ic).err = none ∧ (validateInput env ic).ic.rawInput = some raw)
    ∧ (∀ b, input = Base64.EncodeToString b →
      (validateInput env ic).err = none ∧ (validateInput env ic).ic.rawInput = some b) := by
  have key : ∀ raw, Base64.DecodeString input = some raw →
      (validateInput env ic).err = none ∧ (validateInput env ic).ic.rawInput = some raw := by
    intro raw hraw
    simp [validateInput, hendpoint, hfunction, hstdin, hinput, hraw]
  refine ⟨key, ?_⟩
  intro b hb
  exact key b (by rw [hb]; exact Base64.DecodeString_EncodeToString b)

/-- Scenario A: the literal `aGVsbG8=` resolves to `hello`, and it is the encoding of
`hello`. -/
theorem validateInput_base64_witness :
    (scenarioA.endpoint ≠ none ∧ scenarioA.function ≠ none ∧ scenarioA.stdin ≠ some true
      ∧ scenarioA.input = some (ascii "aGVsbG8=")
      ∧ Base64.DecodeString (ascii "aGVsbG8=") = some (ascii "hello")
      ∧ ascii "aGVsbG8=" = Base64.EncodeToString (ascii "hello"))
    ∧ (validateInput (exampleEnv (.ok [])) scenarioA).err = none
    ∧ (validateInput (exampleEnv (.ok [])) scenarioA).ic.rawInput = some (ascii "hello") :=
  ⟨⟨by decide, by decide, by decide, rfl, by decide, by decide⟩,
    (validateInput_base64 (exampleEnv (.ok [])) scenarioA (ascii "aGVsbG8=")
      (by decide) (by decide) (by decide) rfl).1 (ascii "hello") (by decide)⟩

/-- C3: with endpoint and function present, the stdin flag unset or false and a
literal input that `StdEncoding.DecodeString` rejects, `validateInput` returns no
error and `rawInput` is the bytes of the literal itself.  Every literal that holds a
byte which is neither in the base64 alphabet, nor `=`, nor a newline is such an
input. -/
theorem validateInput_not_base64 (env : Env) (ic : invokeCmd) (input : GoString)
    (hendpoint : ic.endpoint ≠ none) (hfunction : ic.function ≠ none)
    (hstdin : ic.stdin ≠ some true) (hinput : ic.input = some input) :
    (Base64.DecodeString input = none →
      (validateInput env ic).err = none ∧ (validateInput env ic).ic.rawInput = some input)
    ∧ ((∃ c ∈ input, Base64.decodeMap c = 0xff ∧ Base64.isNewline c = false
          ∧ c ≠ Base64.padChar) →
      (validateInput env ic).err = none ∧ (validateInput env ic).ic.rawInput = some input) := by
  have key : Base64.DecodeString input = none →
      (validateInput env ic).err = none ∧ (validateInput env ic).ic.rawInput = some input := by
    intro hraw
    simp [validateInput, hendpoint, hfunction, hstdin, hinput, hraw]
  refine ⟨key, ?_⟩
  rintro ⟨c, hc, hmap, hnl, hpad⟩
  exact key (Base64.decodeLoop_foreign input c hc hmap hnl hpad [])

/-- The literal `hello world` is not base64 (it holds a space) and resolves to its
own bytes. -/
theorem validateInput_not_base64_witness :
    (plainTextCmd.endpoint ≠ none ∧ plainTextCmd.function ≠ none
      ∧ plainTextCmd.stdin ≠ some true ∧ plainTextCmd.input = some (ascii "hello world")
      ∧ Base64.DecodeString (ascii "hello world") = none)
    ∧ (validateInput (exampleEnv (.ok [])) plainTextCmd).err = none
    ∧ (validateInput (exampleEnv (.ok [])) plainTextCmd).ic.rawInput
        = some (ascii "hello world") :=
  ⟨⟨by decide, by decide, by decide, rfl, by decide⟩,
    (validateInput_not_base64 (exampleEnv (.ok [])) plainTextCmd (ascii "hello world")
      (by decide) (by decide) (by decide) rfl).1 (by decide)⟩

/-- The flag fields are never written by `validateInput`. -/
theorem validateInput_flags (env : Env) (ic : invokeCmd) :
    (validateInput env ic).ic.endpoint = ic.endpoint
    ∧ (validateInput env ic).ic.function = ic.function
    ∧ (validateInput env ic).ic.input = ic.input
    ∧ (validateInput env ic).ic.stdin = ic.stdin := by
  unfold validateInput
  split_ifs
  · exact ⟨rfl, rfl, rfl, rfl⟩
  · exact ⟨rfl, rfl, rfl, rfl⟩
  · split <;> exact ⟨rfl, rfl, rfl, rfl⟩
  · split
    · exact ⟨rfl, rfl, rfl, rfl⟩
    · split <;> exact ⟨rfl, rfl, rfl, rfl⟩

/-- When `validateInput` returns nil, endpoint and function are present. -/
theorem validateInput_ok_present (env : Env) (ic : invokeCmd)
    (hv : (validateInput env ic).err = none) :
    ic.endpoint ≠ none ∧ ic.function ≠ none := by
  unfold validateInput at hv
  split_ifs at hv with h1 h2
  · exact ⟨h1, h2⟩
  · exact ⟨h1, h2⟩

/-- The only call that `validateInput` makes is the read of standard input, at most
once. -/
theorem validateInput_trace (env : Env) (ic : invokeCmd) :
    (validateInput env ic).trace = [] ∨ (validateInput env ic).trace = [Event.ReadAllStdin] := by
  unfold validateInput
  split_ifs
  · exact Or.inl rfl
  · exact Or.inl rfl
  · split <;> exact Or.inr rfl
  · split
    · exact Or.inl rfl
    · split <;> exact Or.inl rfl

/-- Without a payload source `validateInput` leaves the command as it is. -/
theorem validateInput_no_source_unchanged (env : Env) (ic : invokeCmd)
    (hstdin : ic.stdin ≠ some true) (hinput : ic.input = none) :
    (validateInput env ic).ic = ic := by
  by_cases h1 : ic.endpoint = none
  · simp [validateInput, h1]
  · by_cases h2 : ic.function = none
    · simp [validateInput, h1, h2]
    · simp [validateInput, h1, h2, hstdin, hinput]

/-- In every command state that arises, a command without literal input and without
the stdin flag has a nil `rawInput`. -/
theorem CommandState_rawInput (ic : invokeCmd) (h : CommandState ic) :
    ic.input = none → ic.stdin ≠ some true → ic.rawInput = none := by
  induction h with
  | built endpoint input function stdin => intro _ _; rfl
  | validated env ic _ ih =>
    intro hinput hstdin
    obtain ⟨_, _, f3, f4⟩ := validateInput_flags env ic
    rw [f3] at hinput
    rw [f4] at hstdin
    rw [validateInput_no_source_unchanged env ic hstdin hinput]
    exact ih hinput hstdin

/-- The command that `RegisterViewCommand` leaves is a command state, with all four
flag pointers non-nil. -/
theorem CommandState_RegisterViewCommand (args : Flags) :
    CommandState (RegisterViewCommand args)
    ∧ (RegisterViewCommand args).endpoint ≠ none ∧ (RegisterViewCommand args).input ≠ none
    ∧ (RegisterViewCommand args).function ≠ none ∧ (RegisterViewCommand args).stdin ≠ none :=
  ⟨CommandState.built _ _ _ _, by simp [RegisterViewCommand], by simp [RegisterViewCommand],
    by simp [RegisterViewCommand], by simp [RegisterViewCommand]⟩

/-- C4: in every command state that arises (built with `rawInput` nil and then written
by `validateInput` only), with endpoint and function present, the stdin flag unset or
false and the literal input absent (the pointer is nil or, as after registration when
`--input` is not given, points to the empty string), `validateInput` returns no error
and the payload `rawInput` after the call is empty or absent. -/
theorem validateInput_no_source (env : Env) (ic : invokeCmd) (hstate : CommandState ic)
    (hendpoint : ic.endpoint ≠ none) (hfunction : ic.function ≠ none)
    (hstdin : ic.stdin ≠ some true) (hinput : ic.input = none ∨ ic.input = some []) :
    (validateInput env ic).err = none ∧ emptyPayload (validateInput env ic).ic.rawInput := by
  rcases hinput with hinput | hinput
  · have h : validateInput env ic = ⟨none, ic, []⟩ := by
      simp [validateInput, hendpoint, hfunction, hstdin, hinput]
    rw [h]
    exact ⟨rfl, Or.inl (CommandState_rawInput ic hstate hinput hstdin)⟩
  · have hd : Base64.DecodeString [] = some [] := rfl
    have h : validateInput env ic = ⟨none, { ic with rawInput := some [] }, []⟩ := by
      simp [validateInput, hendpoint, hfunction, hstdin, hinput, hd]
    rw [h]
    exact ⟨rfl, Or.inr rfl⟩

/-- The command line `view --endpoint node1:7051 --function init` resolves to the empty
payload, also on a second validation; a command built by hand with endpoint and
function only resolves to the absent payload. -/
theorem validateInput_no_source_witness :
    (CommandState (RegisterViewCommand flagsNoInput)
      ∧ (RegisterViewCommand flagsNoInput).endpoint ≠ none
      ∧ (RegisterViewCommand flagsNoInput).function ≠ none
      ∧ (RegisterViewCommand flagsNoInput).stdin ≠ some true
      ∧ (RegisterViewCommand flagsNoInput).input = some [])
    ∧ (validateInput (exampleEnv (.ok [])) (RegisterViewCommand flagsNoInput)).err = none
    ∧ (validateInput (exampleEnv (.ok [])) (RegisterViewCommand flagsNoInput)).ic.rawInput
        = some []
    ∧ emptyPayload
        (validateInput (exampleEnv (.ok [])) (RegisterViewCommand flagsNoInput)).ic.rawInput
    ∧ emptyPayload (validateInput (exampleEnv (.ok [])) noInputCmd).ic.rawInput :=
  have h := validateInput_no_source (exampleEnv (.ok [])) (RegisterViewCommand flagsNoInput)
    (CommandState.built _ _ _ _) (by decide) (by decide) (by decide) (Or.inr rfl)
  ⟨⟨CommandState.built _ _ _ _, by decide, by decide, by decide, rfl⟩, h.1, by decide, h.2,
    (validateInput_no_source (exampleEnv (.ok [])) noInputCmd (CommandState.built _ _ _ _)
      (by decide) (by decide) (by decide) (Or.inl rfl)).2⟩

/-- A failed validation ends `invoke` at once, with the error of `validateInput`. -/
theorem invoke_of_invalid (env : Env) (config : Config) (ic : invokeCmd) (err : GoError)
    (hv : (validateInput env ic).err = some err) :
    invoke env config ic
      = ⟨.returned (some err), (validateInput env ic).ic, none, (validateInput env ic).trace⟩ := by
  simp [invoke, hv]

/-- After a successful validation `invoke` goes on to build `cc` and to load the
identity. -/
theorem invoke_of_valid (env : Env) (config : Config) (ic : invokeCmd)
    (endpoint function : GoString)
    (hv : (validateInput env ic).err = none)
    (hendpoint : ic.endpoint = some endpoint) (hfunction : ic.function = some function) :
    invoke env config ic =
      match env.NewX509SigningIdentity config.SignerConfig.IdentityPath
          config.SignerConfig.KeyPath with
      | .error err =>
        ⟨.returned (some err), (validateInput env ic).ic,
          some ⟨endpoint, 10 * Second, true, pathJoin env.Clean [config.TLSConfig.PeerCACertPath]⟩,
          (validateInput env ic).trace ++ [Event.NewX509SigningIdentity
            config.SignerConfig.IdentityPath config.SignerConfig.KeyPath]⟩
      | .ok signer =>
        match env.NewClient
          ⟨endpoint, 10 * Second, true, pathJoin env.Clean [config.TLSConfig.PeerCACertPath]⟩
          signer with
        | .error err =>
          ⟨.returned (some err), (validateInput env ic).ic,
            some ⟨endpoint, 10 * Second, true,
              pathJoin env.Clean [config.TLSConfig.PeerCACertPath]⟩,
            (validateInput env ic).trace ++ [Event.NewX509SigningIdentity
              config.SignerConfig.IdentityPath config.SignerConfig.KeyPath] ++
              [Event.NewClient ⟨endpoint, 10 * Second, true,
                pathJoin env.Clean [config.TLSConfig.PeerCACertPath]⟩ signer]⟩
        | .ok c =>
          match env.CallView c function (validateInput env ic).ic.rawInput with
          | .error err =>
            ⟨.returned (some err), (validateInput env ic).ic,
              some ⟨endpoint, 10 * Second, true,
                pathJoin env.Clean [config.TLSConfig.PeerCACertPath]⟩,
              (validateInput env ic).trace ++ [Event.NewX509SigningIdentity
                config.SignerConfig.IdentityPath config.SignerConfig.KeyPath] ++
                [Event.NewClient ⟨endpoint, 10 * Second, true,
                  pathJoin env.Clean [config.TLSConfig.PeerCACertPath]⟩ signer] ++
                [Event.CallView c function (validateInput env ic).ic.rawInput]⟩
          | .ok res =>
            ⟨.returned none, (validateInput env ic).ic,
              some ⟨endpoint, 10 * Second, true,
                pathJoin env.Clean [config.TLSConfig.PeerCACertPath]⟩,
              (validateInput env ic).trace ++ [Event.NewX509SigningIdentity
                config.SignerConfig.IdentityPath config.SignerConfig.KeyPath] ++
                [Event.NewClient ⟨endpoint, 10 * Second, true,
                  pathJoin env.Clean [config.TLSConfig.PeerCACertPath]⟩ signer] ++
                [Event.CallView c function (validateInput env ic).ic.rawInput] ++
                [Event.Println (render res)]⟩ := by
  have hf := validateInput_flags env ic
  have h1 : (validateInput env ic).ic.endpoint = some endpoint := by rw [hf.1, hendpoint]
  have h2 : (validateInput env ic).ic.function = some function := by rw [hf.2.1, hfunction]
  simp only [invoke, hv, h1, h2]

/-- C5, the code at the failing input: on the command line `view --function init`,
where `--endpoint` is omitted, the endpoint points to the empty string; the guard
`ic.endpoint == nil` does not fire, `validateInput` returns no error, and `invoke` goes
on to load the identity, to build a client for the address `""` and to call the
view. -/
theorem invoke_endpoint_omitted :
    (RegisterViewCommand flagsNoEndpoint).endpoint = some []
    ∧ (validateInput (exampleEnv (.ok [])) (RegisterViewCommand flagsNoEndpoint)).err = none
    ∧ invoke (exampleEnv (.ok [])) exampleConfig (RegisterViewCommand flagsNoEndpoint)
      = ⟨.returned none, { RegisterViewCommand flagsNoEndpoint with rawInput := some [] },
          some ⟨[], 10 * Second, true, ascii "tls/ca.pem"⟩,
          [Event.NewX509SigningIdentity (ascii "msp/cert.pem") (ascii "msp/key.pem"),
           Event.NewClient ⟨[], 10 * Second, true, ascii "tls/ca.pem"⟩ ⟨1⟩,
           Event.CallView ⟨1⟩ (ascii "init") (some []),
           Event.Println (ascii "ok" ++ [10])]⟩ := by
  refine ⟨rfl, by decide, by decide⟩

/-- The guard on the endpoint fires for a nil pointer only: then `validateInput` fails
with `endpoint must be specified` whatever function, input and stdin are, without any
call and without touching the command, and `invoke` returns that error, builds no
connection configuration and makes no call at all. -/
theorem invoke_endpoint_absent (env : Env) (config : Config) (ic : invokeCmd)
    (hendpoint : ic.endpoint = none) :
    validateInput env ic = ⟨some (Errorf "endpoint must be specified"), ic, []⟩
    ∧ invoke env config ic
      = ⟨.returned (some (Errorf "endpoint must be specified")), ic, none, []⟩ := by
  have h : validateInput env ic = ⟨some (Errorf "endpoint must be specified"), ic, []⟩ := by
    simp [validateInput, hendpoint]
  refine ⟨h, ?_⟩
  rw [invoke_of_invalid env config ic (Errorf "endpoint must be specified") (by rw [h]), h]

/-- Scenario B with a nil endpoint pointer fails before anything is read or called. -/
theorem invoke_endpoint_absent_witness :
    ({ scenarioB with endpoint := none } : invokeCmd).endpoint = none
    ∧ validateInput (exampleEnv (.ok (ascii "raw-bytes"))) { scenarioB with endpoint := none }
      = ⟨some (Errorf "endpoint must be specified"), { scenarioB with endpoint := none }, []⟩
    ∧ invoke (exampleEnv (.ok (ascii "raw-bytes"))) exampleConfig
        { scenarioB with endpoint := none }
      = ⟨.returned (some (Errorf "endpoint must be specified")),
          { scenarioB with endpoint := none }, none, []⟩ :=
  ⟨rfl, invoke_endpoint_absent (exampleEnv (.ok (ascii "raw-bytes"))) exampleConfig
    { scenarioB with endpoint := none } rfl⟩

/-- C6, the code at the failing input: on the command line
`view --endpoint node1:7051 --stdin`, where `--function` is omitted, the function name
points to the empty string; the guard `ic.function == nil` does not fire,
`validateInput` reads standard input, assigns `rawInput` and returns no error, and
`invoke` calls the view with the function name `""`. -/
theorem invoke_function_omitted :
    (RegisterViewCommand flagsNoFunction).function = some []
    ∧ validateInput (exampleEnv (.ok (ascii "raw-bytes"))) (RegisterViewCommand flagsNoFunction)
      = ⟨none, { RegisterViewCommand flagsNoFunction with rawInput := some (ascii "raw-bytes") },
          [Event.ReadAllStdin]⟩
    ∧ (invoke (exampleEnv (.ok (ascii "raw-bytes"))) exampleConfig
        (RegisterViewCommand flagsNoFunction)).out = .returned none
    ∧ (invoke (exampleEnv (.ok (ascii "raw-bytes"))) exampleConfig
        (RegisterViewCommand flagsNoFunction)).trace.filter Event.isCallView
      = [Event.CallView ⟨1⟩ [] (some (ascii "raw-bytes"))] := by
  refine ⟨rfl, by decide, by decide, by decide⟩

/-- The guard on the function name fires for a nil pointer only: then `validateInput`
fails with a missing-parameter error, `function name must be specified` when the
endpoint is present, before any payload resolution: standard input is not read and the
command, `rawInput` included, is as before. -/
theorem validateInput_function_absent (env : Env) (ic : invokeCmd)
    (hfunction : ic.function = none) :
    (validateInput env ic).err
      = some (Errorf (if ic.endpoint = none then "endpoint must be specified"
          else "function name must be specified"))
    ∧ (ic.endpoint ≠ none →
        (validateInput env ic).err = some (Errorf "function name must be specified"))
    ∧ (validateInput env ic).trace = []
    ∧ (validateInput env ic).ic = ic := by
  by_cases h : ic.endpoint = none
  · simp [validateInput, h]
  · simp [validateInput, h, hfunction]

/-- Scenario B with a nil function pointer fails although the stdin flag is set;
nothing is read. -/
theorem validateInput_function_absent_witness :
    ({ scenarioB with function := none } : invokeCmd).function = none
    ∧ (validateInput (exampleEnv (.ok (ascii "raw-bytes"))) { scenarioB with function := none }).err
      = some (Errorf "function name must be specified")
    ∧ (validateInput (exampleEnv (.ok (ascii "raw-bytes")))
        { scenarioB with function := none }).trace = []
    ∧ (validateInput (exampleEnv (.ok (ascii "raw-bytes")))
        { scenarioB with function := none }).ic = { scenarioB with function := none } :=
  have h := validateInput_function_absent (exampleEnv (.ok (ascii "raw-bytes")))
    { scenarioB with function := none } rfl
  ⟨rfl, h.2.1 (by decide), h.2.2.1, h.2.2.2⟩

set_option maxRecDepth 100000 in
/-- The model of `crypto/sha256` on the test vector `abc` of FIPS 180-2. -/
theorem Hash_abc :
    Hash (ascii "abc") =
      ([0xba, 0x78, 0x16, 0xbf, 0x8f, 0x01, 0xcf, 0xea, 0x41, 0x41, 0x40, 0xde, 0x5d, 0xae,
        0x22, 0x23, 0xb0, 0x03, 0x61, 0xa3, 0x96, 0x17, 0x7a, 0x9c, 0xb4, 0x10, 0xff, 0x61,
        0xf2, 0x00, 0x15, 0xad], none) := by
  decide

/-- C7: for every byte sequence `m`, `Hash(m)` returns a nil error and the digest
obtained from a fresh sink of `GetHash()` by writing `m` into it and finalising it with
`Sum(nil)`; the sink of `GetHash()` is a new SHA-256 digest, the one `Hash` starts
from; and the digest is the same when `m` is written into the sink in pieces, by any
number of calls of `Write`. -/
theorem Hash_eq_GetHash_Write_Sum (m : Bytes) :
    Hash m = (Sha256.Sum (Sha256.Write GetHash m) [], none)
    ∧ GetHash = Sha256.New
    ∧ ∀ parts : List Bytes, parts.flatten = m →
        Hash m = (Sha256.Sum (parts.foldl Sha256.Write GetHash) [], none) := by
  refine ⟨rfl, rfl, ?_⟩
  intro parts hparts
  show (Sha256.Sum (Sha256.Write Sha256.New m) [], none)
    = (Sha256.Sum (parts.foldl Sha256.Write Sha256.New) [], none)
  rw [Sha256.foldl_Write_New, hparts]

/-- The message `abc`, written at once or as `a` followed by `bc`, has the digest that
`Hash` returns. -/
theorem Hash_eq_GetHash_Write_Sum_witness :
    [ascii "a", ascii "bc"].flatten = ascii "abc"
    ∧ Hash (ascii "abc") = (Sha256.Sum (Sha256.Write GetHash (ascii "abc")) [], none)
    ∧ Hash (ascii "abc")
      = (Sha256.Sum (Sha256.Write (Sha256.Write GetHash (ascii "a")) (ascii "bc")) [], none) :=
  ⟨by decide, (Hash_eq_GetHash_Write_Sum (ascii "abc")).1,
    (Hash_eq_GetHash_Write_Sum (ascii "abc")).2.2 [ascii "a", ascii "bc"] (by decide)⟩

/-- C8: with endpoint and function present and the stdin flag set, if reading standard
input fails with `err`, then `validateInput` returns the error
`failed reading input from stdin: ` followed by the text of `err`; the command is
left as it was, so the literal input is not used in its place. -/
theorem validateInput_stdin_error (env : Env) (ic : invokeCmd) (err : GoError)
    (hendpoint : ic.endpoint ≠ none) (hfunction : ic.function ≠ none)
    (hstdin : ic.stdin = some true) (hread : env.ReadAllStdin = .error err) :
    (validateInput env ic).err
      = some (Errorf ("failed reading input from stdin: " ++ err.msg))
    ∧ (validateInput env ic).ic = ic
    ∧ (validateInput env ic).ic.rawInput = ic.rawInput := by
  simp [validateInput, hendpoint, hfunction, hstdin, hread]

/-- Scenario B with a standard input that fails: the error is reported, and the
literal `ignored` does not become the payload. -/
theorem validateInput_stdin_error_witness :
    (scenarioB.endpoint ≠ none ∧ scenarioB.function ≠ none ∧ scenarioB.stdin = some true
      ∧ brokenStdinEnv.ReadAllStdin = .error ⟨"unexpected EOF"⟩)
    ∧ (validateInput brokenStdinEnv scenarioB).err
      = some (Errorf "failed reading input from stdin: unexpected EOF")
    ∧ (validateInput brokenStdinEnv scenarioB).ic = scenarioB
    ∧ (validateInput brokenStdinEnv scenarioB).ic.rawInput = none :=
  ⟨⟨by decide, by decide, rfl, rfl⟩,
    validateInput_stdin_error brokenStdinEnv scenarioB ⟨"unexpected EOF"⟩
      (by decide) (by decide) rfl rfl⟩

/-! ## Theorems: `invoke` -/

/-- `path.Join` of a single element: the empty path stays empty, any other path is
cleaned. -/
theorem pathJoin_singleton (clean : GoString → GoString) (p : GoString) :
    pathJoin clean [p] = if p = [] then [] else clean p := by
  by_cases h : p = []
  · subst h; simp [pathJoin]
  · have hl : p.length ≠ 0 := fun h0 => h (List.length_eq_zero.mp h0)
    simp [pathJoin, h, hl]

/-- C9: whenever validation passes, the connection configuration that `invoke` builds
has `TLSEnabled = true`, `ConnectionTimeout` equal to ten seconds, `Address` equal to
the endpoint and `TLSRootCertFile` equal to `path.Join` of the configured peer CA
certificate path, which is the empty path when that path is empty and `path.Clean` of
that path otherwise; it is the configuration that `NewClient` receives; no input at
all yields a configuration with TLS disabled. -/
theorem invoke_connection_config (env : Env) (config : Config) (ic : invokeCmd) :
    ((validateInput env ic).err = none →
      ∃ cc, (invoke env config ic).cc = some cc
        ∧ cc.TLSEnabled = true
        ∧ cc.ConnectionTimeout = 10 * Second
        ∧ ic.endpoint = some cc.Address
        ∧ cc.TLSRootCertFile = pathJoin env.Clean [config.TLSConfig.PeerCACertPath]
        ∧ cc.TLSRootCertFile
          = (if config.TLSConfig.PeerCACertPath = [] then []
            else env.Clean config.TLSConfig.PeerCACertPath))
    ∧ (∀ cc, (invoke env config ic).cc = some cc → cc.TLSEnabled = true)
    ∧ (∀ cc signer, Event.NewClient cc signer ∈ (invoke env config ic).trace →
        (invoke env config ic).cc = some cc ∧ cc.TLSEnabled = true) := by
  have key : ((validateInput env ic).err = none →
      ∃ cc, (invoke env config ic).cc = some cc
        ∧ cc.TLSEnabled = true
        ∧ cc.ConnectionTimeout = 10 * Second
        ∧ ic.endpoint = some cc.Address
        ∧ cc.TLSRootCertFile = pathJoin env.Clean [config.TLSConfig.PeerCACertPath])
    ∧ (∀ cc, (invoke env config ic).cc = some cc → cc.TLSEnabled = true)
    ∧ (∀ cc signer, Event.NewClient cc signer ∈ (invoke env config ic).trace →
        (invoke env config ic).cc = some cc ∧ cc.TLSEnabled = true) := by
    cases hv : (validateInput env ic).err with
    | some err =>
      rw [invoke_of_invalid env config ic err hv]
      refine ⟨fun h => Option.noConfusion h, fun cc h => Option.noConfusion h, ?_⟩
      intro cc signer hmem
      rcases validateInput_trace env ic with ht | ht <;> rw [ht] at hmem <;> simp at hmem
    | none =>
      obtain ⟨h1, h2⟩ := validateInput_ok_present env ic hv
      obtain ⟨endpoint, hendpoint⟩ := Option.ne_none_iff_exists'.mp h1
      obtain ⟨function, hfunction⟩ := Option.ne_none_iff_exists'.mp h2
      rw [invoke_of_valid env config ic endpoint function hv hendpoint hfunction]
      rcases validateInput_trace env ic with ht | ht <;> rw [ht] <;>
        (split <;> try split <;> try split) <;> simp [hendpoint]
  refine ⟨fun hv => ?_, key.2.1, key.2.2⟩
  obtain ⟨cc, hcc, htls, htimeout, haddress, hroot⟩ := key.1 hv
  exact ⟨cc, hcc, htls, htimeout, haddress, hroot, hroot.trans (pathJoin_singleton _ _)⟩

/-- Scenario A passes validation; its configuration has TLS on, a timeout of ten
seconds, the address `node1:7051` and the trust root `tls/ca.pem`, the configured
path; with the configured path `/etc/fsc/./certs//ca.pem` the trust root is
`/etc/fsc/certs/ca.pem`. -/
theorem invoke_connection_config_witness :
    (validateInput (exampleEnv (.ok [])) scenarioA).err = none
    ∧ (∃ cc, (invoke (exampleEnv (.ok [])) exampleConfig scenarioA).cc = some cc
        ∧ cc.TLSEnabled = true
        ∧ cc.ConnectionTimeout = 10 * Second
        ∧ scenarioA.endpoint = some cc.Address
        ∧ cc.TLSRootCertFile
          = pathJoin (exampleEnv (.ok [])).Clean [exampleConfig.TLSConfig.PeerCACertPath]
        ∧ cc.TLSRootCertFile
          = (if exampleConfig.TLSConfig.PeerCACertPath = [] then []
            else (exampleEnv (.ok [])).Clean exampleConfig.TLSConfig.PeerCACertPath))
    ∧ (invoke (exampleEnv (.ok [])) exampleConfig scenarioA).cc
      = some ⟨ascii "node1:7051", 10000000000, true, ascii "tls/ca.pem"⟩
    ∧ (invoke (exampleEnv (.ok [])) uncleanConfig scenarioA).cc
      = some ⟨ascii "node1:7051", 10000000000, true, ascii "/etc/fsc/certs/ca.pem"⟩ :=
  ⟨by decide, (invoke_connection_config (exampleEnv (.ok [])) exampleConfig scenarioA).1
    (by decide), by decide, by decide⟩

/-- C10: `invoke` makes one attempt.  Its stages run in the order `validateInput`,
`NewX509SigningIdentity`, `NewClient`, `CallView`; the first stage that returns an
error ends the call, which returns that very error, and the trace ends with that
stage, so that no later stage is run; `CallView` is called at most once; nil is
returned only when all four stages succeed, and then the four stages are followed by
the printing of the result.  No nil pointer is dereferenced. -/
theorem invoke_stages (env : Env) (config : Config) (ic : invokeCmd) :
    (∀ err, (validateInput env ic).err = some err →
      (invoke env config ic).out = .returned (some err)
      ∧ (invoke env config ic).trace = (validateInput env ic).trace)
    ∧ ((validateInput env ic).trace = [] ∨ (validateInput env ic).trace = [Event.ReadAllStdin])
    ∧ ((validateInput env ic).err = none →
      ∃ function cc, ic.function = some function ∧ (invoke env config ic).cc = some cc
        ∧ (∀ err, env.NewX509SigningIdentity config.SignerConfig.IdentityPath
              config.SignerConfig.KeyPath = .error err →
            (invoke env config ic).out = .returned (some err)
            ∧ (invoke env config ic).trace = (validateInput env ic).trace ++
                [Event.NewX509SigningIdentity config.SignerConfig.IdentityPath
                  config.SignerConfig.KeyPath])
        ∧ (∀ signer, env.NewX509SigningIdentity config.SignerConfig.IdentityPath
              config.SignerConfig.KeyPath = .ok signer →
            (∀ err, env.NewClient cc signer = .error err →
              (invoke env config ic).out = .returned (some err)
              ∧ (invoke env config ic).trace = (validateInput env ic).trace ++
                  [Event.NewX509SigningIdentity config.SignerConfig.IdentityPath
                    config.SignerConfig.KeyPath,
                   Event.NewClient cc signer])
            ∧ (∀ c, env.NewClient cc signer = .ok c →
              (∀ err, env.CallView c function (validateInput env ic).ic.rawInput = .error err →
                (invoke env config ic).out = .returned (some err)
                ∧ (invoke env config ic).trace = (validateInput env ic).trace ++
                    [Event.NewX509SigningIdentity config.SignerConfig.IdentityPath
                      config.SignerConfig.KeyPath,
                     Event.NewClient cc signer,
                     Event.CallView c function (validateInput env ic).ic.rawInput])
              ∧ (∀ res, env.CallView c function (validateInput env ic).ic.rawInput = .ok res →
                (invoke env config ic).out = .returned none
                ∧ (invoke env config ic).trace = (validateInput env ic).trace ++
                    [Event.NewX509SigningIdentity config.SignerConfig.IdentityPath
                      config.SignerConfig.KeyPath,
                     Event.NewClient cc signer,
                     Event.CallView c function (validateInput env ic).ic.rawInput,
                     Event.Println (render res)]))))
    ∧ ((invoke env config ic).out = .returned none →
      (validateInput env ic).err = none
      ∧ ∃ function cc signer c res, ic.function = some function
        ∧ (invoke env config ic).cc = some cc
        ∧ env.NewX509SigningIdentity config.SignerConfig.IdentityPath
            config.SignerConfig.KeyPath = .ok signer
        ∧ env.NewClient cc signer = .ok c
        ∧ env.CallView c function (validateInput env ic).ic.rawInput = .ok res)
    ∧ (invoke env config ic).trace.countP Event.isCallView ≤ 1
    ∧ (invoke env config ic).out ≠ .nilDereference := by
  have htrace := validateInput_trace env ic
  cases hv : (validateInput env ic).err with
  | some err =>
    rw [invoke_of_invalid env config ic err hv]
    refine ⟨?_, htrace, fun h => Option.noConfusion h, ?_, ?_, ?_⟩
    · intro err2 h2
      cases h2
      exact ⟨rfl, rfl⟩
    · intro h; simp at h
    · rcases htrace with ht | ht <;> rw [ht] <;> simp [Event.isCallView]
    · simp
  | none =>
    obtain ⟨h1, h2⟩ := validateInput_ok_present env ic hv
    obtain ⟨endpoint, hendpoint⟩ := Option.ne_none_iff_exists'.mp h1
    obtain ⟨function, hfunction⟩ := Option.ne_none_iff_exists'.mp h2
    rw [invoke_of_valid env config ic endpoint function hv hendpoint hfunction]
    refine ⟨fun err h => Option.noConfusion h, htrace, ?_, ?_, ?_, ?_⟩
    · intro _
      refine ⟨function,
        ⟨endpoint, 10 * Second, true, pathJoin env.Clean [config.TLSConfig.PeerCACertPath]⟩,
        hfunction, ?_, ?_, ?_⟩
      · split <;> try split <;> try split
        all_goals rfl
      · intro err herr
        rw [herr]
        exact ⟨rfl, rfl⟩
      · intro signer hsigner
        rw [hsigner]
        refine ⟨?_, ?_⟩
        · intro err herr
          simp [herr]
        · intro c hc
          simp only [hc]
          refine ⟨?_, ?_⟩
          · intro err herr
            simp [herr]
          · intro res hres
            simp [hres]
    · intro hout
      refine ⟨rfl, ?_⟩
      cases hs : env.NewX509SigningIdentity config.SignerConfig.IdentityPath
          config.SignerConfig.KeyPath with
      | error err => rw [hs] at hout; simp at hout
      | ok signer =>
        rw [hs] at hout
        simp only [] at hout
        cases hc : env.NewClient
            ⟨endpoint, 10 * Second, true, pathJoin env.Clean [config.TLSConfig.PeerCACertPath]⟩
            signer with
        | error err => rw [hc] at hout; simp at hout
        | ok c =>
          rw [hc] at hout
          simp only [] at hout
          cases hr : env.CallView c function (validateInput env ic).ic.rawInput with
          | error err => rw [hr] at hout; simp at hout
          | ok res =>
            refine ⟨function,
              ⟨endpoint, 10 * Second, true, pathJoin env.Clean [config.TLSConfig.PeerCACertPath]⟩,
              signer, c, res, hfunction, ?_, ?_, ?_, ?_⟩ <;>
              first | rfl | assumption | simp [hc, hr]
    · rcases htrace with ht | ht <;> rw [ht] <;>
        (split <;> try split <;> try split) <;> simp [Event.isCallView, List.countP_cons]
    · (split <;> try split <;> try split) <;> simp

end view

/-! ## Theorems: the postgres key codec -/

namespace postgres

/-- The encoding of a key is valid hexadecimal. -/
theorem validHex_encode (s : GoString) : validHex (encode s) = true :=
  (Hex.DecodeString_ok_iff (encode s)).mp (by
    unfold encode
    rw [Hex.DecodeString_hex_EncodeToString])

/-- On valid hexadecimal `decode` returns what `hex.DecodeString` decodes, with a nil
error. -/
theorem decode_of_valid (s : GoString) (h : validHex s = true) :
    decode s = ((Hex.DecodeString s).1, none) := by
  have h2 := (Hex.DecodeString_ok_iff s).mpr h
  unfold decode
  cases hd : Hex.DecodeString s with
  | mk b err =>
    rw [hd] at h2
    simp only at h2
    subst h2
    rfl

/-- On anything else `decode` returns the empty string and an error. -/
theorem decode_of_invalid (s : GoString) (h : validHex s = false) :
    (decode s).1 = [] ∧ (decode s).2 ≠ none := by
  have h2 : (Hex.DecodeString s).2 ≠ none := by
    intro h3
    rw [(Hex.DecodeString_ok_iff s).mp h3] at h
    exact Bool.noConfusion h
  unfold decode
  cases hd : Hex.DecodeString s with
  | mk b err =>
    rw [hd] at h2
    cases err with
    | none => exact absurd rfl h2
    | some e => exact ⟨rfl, by simp⟩

/-- C14: for every string `s`, `decode(encode(s))` returns `s` with a nil error; so
`encode` is injective and distinct keys have distinct encodings. -/
theorem decode_encode (s : GoString) :
    decode (encode s) = (s, none) ∧ (∀ t : GoString, encode s = encode t → s = t) := by
  have key : ∀ u : GoString, decode (encode u) = (u, none) := by
    intro u
    rw [decode_of_valid (encode u) (validHex_encode u)]
    unfold encode
    rw [Hex.DecodeString_hex_EncodeToString]
  refine ⟨key s, ?_⟩
  intro t h
  have h1 := key s
  rw [h, key t] at h1
  exact (Prod.mk.inj h1).1.symm

/-- C15: `decode` returns an error if and only if its input is not valid hexadecimal,
that is, has odd length or holds a character outside `0-9`, `a-f`, `A-F`; with an error
the returned string is empty; and when it succeeds on a string of length `2n` the
result has exactly `n` bytes. -/
theorem decode_error_iff (s : GoString) :
    ((decode s).2 ≠ none ↔ validHex s = false)
    ∧ (validHex s = false ↔ (s.length % 2 = 1 ∨ ∃ c ∈ s, isHexDigit c = false))
    ∧ ((decode s).2 ≠ none → (decode s).1 = [])
    ∧ (∀ n, (decode s).2 = none → s.length = 2 * n → (decode s).1.length = n) := by
  have hcases : validHex s = true ∨ validHex s = false := by
    cases validHex s
    · exact Or.inr rfl
    · exact Or.inl rfl
  refine ⟨?_, ?_, ?_, ?_⟩
  · rcases hcases with h | h
    · rw [decode_of_valid s h, h]; simp
    · exact ⟨fun _ => h, fun _ => (decode_of_invalid s h).2⟩
  · simp only [validHex, Bool.and_eq_false_iff, beq_eq_false_iff_ne, ne_eq,
      List.all_eq_false]
    constructor
    · rintro (h | ⟨c, hc, hd⟩)
      · left; omega
      · right; exact ⟨c, hc, by simpa using hd⟩
    · rintro (h | ⟨c, hc, hd⟩)
      · left; omega
      · right; exact ⟨c, hc, by simp [hd]⟩
  · intro herr
    rcases hcases with h | h
    · rw [decode_of_valid s h] at herr; exact absurd rfl herr
    · exact (decode_of_invalid s h).1
  · intro n hok hlen
    rcases hcases with h | h
    · rw [decode_of_valid s h]
      have := Hex.DecodeString_length s ((Hex.DecodeString_ok_iff s).mpr h)
      simp only
      omega
    · exact absurd hok (decode_of_invalid s h).2

/-- C16: for every record `r` whose key is valid hexadecimal, `decodeUnversionedRead`
returns a nil error and a record whose `Key` is the hexadecimal decoding of `r.Key` and
whose `Raw` is `r.Raw`, and the record passed in is as before; in particular the record
with key `encode(k)` and value `raw` yields the record with key `k` and value `raw`,
for every `k` and `raw`. -/
theorem decodeUnversionedRead_valid (r : UnversionedRead) (h : validHex r.Key = true) :
    (decodeUnversionedRead (some r)).err = none
    ∧ (decodeUnversionedRead (some r)).res = some ⟨(Hex.DecodeString r.Key).1, r.Raw⟩
    ∧ (decodeUnversionedRead (some r)).v = some r
    ∧ (∀ (k : GoString) (raw : Bytes),
        decodeUnversionedRead (some ⟨encode k, raw⟩)
          = ⟨some ⟨encode k, raw⟩, some ⟨k, raw⟩, none⟩) := by
  have h1 : decodeUnversionedRead (some r)
      = ⟨some r, some ⟨(Hex.DecodeString r.Key).1, r.Raw⟩, none⟩ := by
    simp only [decodeUnversionedRead, decode_of_valid r.Key h]
  rw [h1]
  refine ⟨rfl, rfl, rfl, ?_⟩
  intro k raw
  have hk : decode (encode k) = (k, none) := by
    rw [decode_of_valid (encode k) (validHex_encode k)]
    unfold encode
    rw [Hex.DecodeString_hex_EncodeToString]
  simp only [decodeUnversionedRead, hk]

/-- The stored record with key `6b657931` is decoded to the record with key `key1`,
and is left as it was. -/
theorem decodeUnversionedRead_valid_witness :
    validHex storedRead.Key = true
    ∧ (decodeUnversionedRead (some storedRead)).err = none
    ∧ (decodeUnversionedRead (some storedRead)).res = some ⟨ascii "key1", ascii "value"⟩
    ∧ (decodeUnversionedRead (some storedRead)).v = some storedRead :=
  have h := decodeUnversionedRead_valid storedRead (by decide)
  ⟨by decide, h.1, h.2.1.trans (by decide), h.2.2.1⟩

/-- C17: `decodeUnversionedRead` maps a nil record to a nil record and a nil error; it
returns an error exactly when the record is not nil and its key is not valid
hexadecimal, and then the returned record is nil. -/
theorem decodeUnversionedRead_error (v : Option UnversionedRead) :
    decodeUnversionedRead none = ⟨none, none, none⟩
    ∧ ((decodeUnversionedRead v).err ≠ none ↔ ∃ r, v = some r ∧ validHex r.Key = false)
    ∧ ((decodeUnversionedRead v).err ≠ none → (decodeUnversionedRead v).res = none) := by
  refine ⟨rfl, ?_, ?_⟩
  · cases v with
    | none => simp [decodeUnversionedRead]
    | some r =>
      cases hvalid : validHex r.Key with
      | true =>
        simp [decodeUnversionedRead, decode_of_valid r.Key hvalid, hvalid]
      | false =>
        obtain ⟨h1, h2⟩ := decode_of_invalid r.Key hvalid
        cases hd : decode r.Key with
        | mk key err =>
          rw [hd] at h2
          cases err with
          | none => exact absurd rfl h2
          | some e => simp [decodeUnversionedRead, hd, hvalid]
  · cases v with
    | none => intro h; exact absurd rfl h
    | some r =>
      cases hd : decode r.Key with
      | mk key err =>
        cases err with
        | none => simp [decodeUnversionedRead, hd]
        | some e => simp [decodeUnversionedRead, hd]

/-- C13: on a non-nil error `decodeIterator` returns the nil iterator and that very
error, whatever the iterator and the transformer are, so that the transformer is not
applied; on a nil error it returns `collections.Map(it, transformer)` and a nil
error.  Call number `i` of `Next` on the mapped iterator answers the transformer
applied to what call number `i` on `it` answers, so the elements come in the same
order.  `decodeUnversionedReadIterator` is `decodeIterator` with the transformer
`decodeUnversionedRead`. -/
theorem decodeIterator_short_circuit {R : Type} (it : collections.Iterator (Option R))
    (transformer : Option R → Option R × Option GoError) :
    (∀ err : GoError, decodeIterator it (some err) transformer = (.nil, some err))
    ∧ (∀ (err : GoError) (it2 : collections.Iterator (Option R))
        (transformer2 : Option R → Option R × Option GoError),
        decodeIterator it (some err) transformer = decodeIterator it2 (some err) transformer2)
    ∧ decodeIterator it none transformer = (collections.Map it transformer, none)
    ∧ (∀ i, (collections.Map it transformer).Next i =
        match it.Next i with
        | .nilDereference => .nilDereference
        | .returned _ (some err) => .returned none (some err)
        | .returned v none => .returned (transformer v).1 (transformer v).2)
    ∧ (∀ (answers : Nat → Option R × Option GoError) (i : Nat), (answers i).2 = none →
        (collections.Map (.source answers) transformer).Next i
          = .returned (transformer (answers i).1).1 (transformer (answers i).1).2)
    ∧ (∀ (reads : collections.Iterator (Option UnversionedRead)) (err : Option GoError),
        decodeUnversionedReadIterator reads err
          = decodeIterator reads err
              (fun v => ((decodeUnversionedRead v).res, (decodeUnversionedRead v).err))) := by
  refine ⟨fun _ => rfl, fun _ _ _ => rfl, rfl, ?_, ?_, fun _ _ => rfl⟩
  · intro i
    simp only [collections.Map, collections.Iterator.Next]
    cases collections.Iterator.Next it i with
    | nilDereference => rfl
    | returned v err => cases err <;> rfl
  · intro answers i h
    simp only [collections.Map, collections.Iterator.Next, h]

/-- A query that failed yields the nil iterator and its error; a query that
succeeded yields an iterator whose first element is the stored record with its key
decoded and whose second is nil. -/
theorem decodeIterator_short_circuit_witness :
    decodeUnversionedReadIterator storedIterator (some ⟨"query failed"⟩)
      = (.nil, some ⟨"query failed"⟩)
    ∧ (decodeUnversionedReadIterator storedIterator none).2 = none
    ∧ (decodeUnversionedReadIterator storedIterator none).1.Next 0
      = .returned (some ⟨ascii "key1", ascii "value"⟩) none
    ∧ (decodeUnversionedReadIterator storedIterator none).1.Next 1 = .returned none none := by
  have h := decodeIterator_short_circuit storedIterator
    (fun v => ((decodeUnversionedRead v).res, (decodeUnversionedRead v).err))
  have h0 : decodeUnversionedRead (some storedRead)
      = ⟨some storedRead, some ⟨ascii "key1", ascii "value"⟩, none⟩ := by decide
  refine ⟨h.1 ⟨"query failed"⟩, rfl, ?_, ?_⟩
  · refine (h.2.2.2.2.1
      (fun i => if i = 0 then (some storedRead, none) else (none, none)) 0 rfl).trans ?_
    simp [h0]
  · exact h.2.2.2.2.1
      (fun i => if i = 0 then (some storedRead, none) else (none, none)) 1 rfl

end postgres

/-! ## Theorems: `invoke`, the call and the rendering -/

namespace view

/-- When validation, the identity and the client succeed, the trace of `invoke` up to
the call of the view is fixed, and what follows is the answer of `CallView`. -/
theorem invoke_of_client (env : Env) (config : Config) (ic : invokeCmd)
    (endpoint function : GoString) (signer : SigningIdentity) (c : Client)
    (hv : (validateInput env ic).err = none)
    (hendpoint : ic.endpoint = some endpoint) (hfunction : ic.function = some function)
    (hs : env.NewX509SigningIdentity config.SignerConfig.IdentityPath
      config.SignerConfig.KeyPath = .ok signer)
    (hc : env.NewClient
      ⟨endpoint, 10 * Second, true, pathJoin env.Clean [config.TLSConfig.PeerCACertPath]⟩
      signer = .ok c) :
    invoke env config ic =
      match env.CallView c function (validateInput env ic).ic.rawInput with
      | .error err =>
        ⟨.returned (some err), (validateInput env ic).ic,
          some ⟨endpoint, 10 * Second, true,
            pathJoin env.Clean [config.TLSConfig.PeerCACertPath]⟩,
          (validateInput env ic).trace ++ [Event.NewX509SigningIdentity
            config.SignerConfig.IdentityPath config.SignerConfig.KeyPath] ++
            [Event.NewClient ⟨endpoint, 10 * Second, true,
              pathJoin env.Clean [config.TLSConfig.PeerCACertPath]⟩ signer] ++
            [Event.CallView c function (validateInput env ic).ic.rawInput]⟩
      | .ok res =>
        ⟨.returned none, (validateInput env ic).ic,
          some ⟨endpoint, 10 * Second, true,
            pathJoin env.Clean [config.TLSConfig.PeerCACertPath]⟩,
          (validateInput env ic).trace ++ [Event.NewX509SigningIdentity
            config.SignerConfig.IdentityPath config.SignerConfig.KeyPath] ++
            [Event.NewClient ⟨endpoint, 10 * Second, true,
              pathJoin env.Clean [config.TLSConfig.PeerCACertPath]⟩ signer] ++
            [Event.CallView c function (validateInput env ic).ic.rawInput] ++
            [Event.Println (render res)]⟩ := by
  rw [invoke_of_valid env config ic endpoint function hv hendpoint hfunction, hs]
  simp only [hc]

/-- C11: when validation, the loading of the identity and the construction of the
client succeed, `invoke` calls `CallView` once, with the function name held in the
command and with the payload that `validateInput` resolved, as it is: the bytes of
standard input, the decoded literal, the bytes of the literal, or, without input,
`rawInput` as it was. -/
theorem invoke_CallView_arguments (env : Env) (config : Config) (ic : invokeCmd)
    (endpoint function : GoString) (signer : SigningIdentity) (c : Client)
    (hv : (validateInput env ic).err = none)
    (hendpoint : ic.endpoint = some endpoint) (hfunction : ic.function = some function)
    (hs : env.NewX509SigningIdentity config.SignerConfig.IdentityPath
      config.SignerConfig.KeyPath = .ok signer)
    (hc : env.NewClient
      ⟨endpoint, 10 * Second, true, pathJoin env.Clean [config.TLSConfig.PeerCACertPath]⟩
      signer = .ok c) :
    (invoke env config ic).trace.filter Event.isCallView
      = [Event.CallView c function (validateInput env ic).ic.rawInput]
    ∧ (ic.stdin = some true → ∀ b, env.ReadAllStdin = .ok b →
        (validateInput env ic).ic.rawInput = some b)
    ∧ (ic.stdin ≠ some true → ∀ input raw, ic.input = some input →
        Base64.DecodeString input = some raw → (validateInput env ic).ic.rawInput = some raw)
    ∧ (ic.stdin ≠ some true → ∀ input, ic.input = some input →
        Base64.DecodeString input = none → (validateInput env ic).ic.rawInput = some input)
    ∧ (ic.stdin ≠ some true → ic.input = none →
        (validateInput env ic).ic.rawInput = ic.rawInput) := by
  have h1 : ic.endpoint ≠ none := by rw [hendpoint]; simp
  have h2 : ic.function ≠ none := by rw [hfunction]; simp
  refine ⟨?_, ?_, ?_, ?_, ?_⟩
  · rw [invoke_of_client env config ic endpoint function signer c hv hendpoint hfunction hs hc]
    rcases validateInput_trace env ic with ht | ht <;> rw [ht] <;> split <;>
      simp [Event.isCallView, List.filter_cons]
  · intro hstdin b hread
    simp [validateInput, h1, h2, hstdin, hread]
  · intro hstdin input raw hinput hraw
    simp [validateInput, h1, h2, hstdin, hinput, hraw]
  · intro hstdin input hinput hraw
    simp [validateInput, h1, h2, hstdin, hinput, hraw]
  · intro hstdin hinput
    simp [validateInput, h1, h2, hstdin, hinput]

/-- Scenario A: endpoint `node1:7051`, function `init`, literal `aGVsbG8=` lead to the
call `CallView("init", "hello")`. -/
theorem invoke_CallView_arguments_witness :
    ((validateInput (exampleEnv (.ok [])) scenarioA).err = none
      ∧ scenarioA.endpoint = some (ascii "node1:7051")
      ∧ scenarioA.function = some (ascii "init")
      ∧ scenarioA.input = some (ascii "aGVsbG8="))
    ∧ (invoke (exampleEnv (.ok [])) exampleConfig scenarioA).trace.filter Event.isCallView
      = [Event.CallView ⟨1⟩ (ascii "init") (some (ascii "hello"))] :=
  ⟨⟨by decide, rfl, rfl, rfl⟩,
    (invoke_CallView_arguments (exampleEnv (.ok [])) exampleConfig scenarioA
      (ascii "node1:7051") (ascii "init") ⟨1⟩ ⟨1⟩ (by decide) rfl rfl rfl rfl).1.trans
      (by decide)⟩

/-- C12: when `CallView` succeeds with the result `res`, `invoke` prints the rendering
of `res` as its last act and returns nil; the rendering is defined for every result:
for a byte sequence it is these bytes followed by a newline, for a value of another
type it is the default text of the value followed by a newline. -/
theorem invoke_renders_result (env : Env) (config : Config) (ic : invokeCmd)
    (endpoint function : GoString) (signer : SigningIdentity) (c : Client) (res : Result)
    (hv : (validateInput env ic).err = none)
    (hendpoint : ic.endpoint = some endpoint) (hfunction : ic.function = some function)
    (hs : env.NewX509SigningIdentity config.SignerConfig.IdentityPath
      config.SignerConfig.KeyPath = .ok signer)
    (hc : env.NewClient
      ⟨endpoint, 10 * Second, true, pathJoin env.Clean [config.TLSConfig.PeerCACertPath]⟩
      signer = .ok c)
    (hr : env.CallView c function (validateInput env ic).ic.rawInput = .ok res) :
    (invoke env config ic).out = .returned none
    ∧ (invoke env config ic).trace.getLast? = some (Event.Println (render res))
    ∧ (∀ v, res = .bytes v → render res = v ++ [10])
    ∧ (∀ text, res = .other text → render res = text ++ [10]) := by
  rw [invoke_of_client env config ic endpoint function signer c hv hendpoint hfunction hs hc,
    hr]
  refine ⟨rfl, by simp, ?_, ?_⟩
  · intro v h; rw [h]; rfl
  · intro text h; rw [h]; rfl

/-- Scenario A: the byte sequence `ok` returned by the view is printed as `ok` and a
newline, and `invoke` returns nil. -/
theorem invoke_renders_result_witness :
    ((validateInput (exampleEnv (.ok [])) scenarioA).err = none
      ∧ (exampleEnv (.ok [])).CallView ⟨1⟩ (ascii "init")
          (validateInput (exampleEnv (.ok [])) scenarioA).ic.rawInput
        = .ok (.bytes (ascii "ok")))
    ∧ (invoke (exampleEnv (.ok [])) exampleConfig scenarioA).out = .returned none
    ∧ (invoke (exampleEnv (.ok [])) exampleConfig scenarioA).trace.getLast?
      = some (Event.Println (ascii "ok" ++ [10])) :=
  have h := invoke_renders_result (exampleEnv (.ok [])) exampleConfig scenarioA
    (ascii "node1:7051") (ascii "init") ⟨1⟩ ⟨1⟩ (.bytes (ascii "ok"))
    (by decide) rfl rfl rfl rfl rfl
  ⟨⟨by decide, rfl⟩, h.1, h.2.1⟩

/-- C18: whenever `validateInput` returns an error, which it does exactly when the
endpoint is absent, the function is absent or the read of standard input fails,
`rawInput` is as before the call; and in every case, error or not, the fields
endpoint, input, function and stdin are as before. -/
theorem validateInput_atomic (env : Env) (ic : invokeCmd) :
    ((validateInput env ic).err ≠ none → (validateInput env ic).ic.rawInput = ic.rawInput)
    ∧ ((validateInput env ic).err ≠ none ↔
        (ic.endpoint = none ∨ ic.function = none
          ∨ (ic.stdin = some true ∧ ∃ err, env.ReadAllStdin = .error err)))
    ∧ (validateInput env ic).ic.endpoint = ic.endpoint
    ∧ (validateInput env ic).ic.input = ic.input
    ∧ (validateInput env ic).ic.function = ic.function
    ∧ (validateInput env ic).ic.stdin = ic.stdin := by
  obtain ⟨f1, f2, f3, f4⟩ := validateInput_flags env ic
  refine ⟨?_, ?_, f1, f3, f2, f4⟩
  · unfold validateInput
    split_ifs
    · intro _; rfl
    · intro _; rfl
    · split
      · intro _; rfl
      · intro h; exact absurd rfl h
    · split
      · intro _; rfl
      · split <;> intro h <;> exact absurd rfl h
  · by_cases h1 : ic.endpoint = none
    · simp [validateInput, h1]
    · by_cases h2 : ic.function = none
      · simp [validateInput, h1, h2]
      · by_cases h3 : ic.stdin = some true
        · cases hread : env.ReadAllStdin with
          | error err => simp [validateInput, h1, h2, h3, hread]
          | ok b => simp [validateInput, h1, h2, h3, hread]
        · cases hinput : ic.input with
          | none => simp [validateInput, h1, h2, h3, hinput]
          | some input =>
            cases hraw : Base64.DecodeString input with
            | none => simp [validateInput, h1, h2, h3, hinput, hraw]
            | some raw => simp [validateInput, h1, h2, h3, hinput, hraw]

end view
